import Mathlib

/-!
Verification of the QSGRaceComputer telemetry-link core.

This file gives a shallow embedding, in Lean 4, of the parts of the
repository that the stated claims are about:

* the frame codec `qsgrc/messages/msgpack.py` (tag allocator, message
  splitting, fragment reassembly);
* the LoRa service `qsgrc/simple_service/lora.py` (pending-ack tracking,
  retransmit monitor, priority transmit scheduler);
* the radio driver `qsgrc/RYLR896/core.py` (parameter validation, send);
* the record classes `qsgrc/messages/alerts.py` and `qsgrc/messages/obd2.py`
  together with the registry `qsgrc/messages/__init__.py`;
* the alert rule engine `qsgrc/alerts/core.py`.

Python integers are modelled as `Nat`/`Int`, floats that the code only ever
compares and passes through are modelled as `ℚ`, Python strings as `String`,
dictionaries as association lists or functions into `Option`, and fallible
paths as `Option`/`Except`.  Each definition cites the source location it
embeds.
-/

namespace QSGRC

/-! ## Frame codec: tag allocator (`msgpack.py`, `MsgPack.__get_tag`) -/

/-- Class attribute `MsgPack.ack_threshold` (msgpack.py line 71). -/
def ack_threshold : Nat := 50

/-- Class attribute `MsgPack.max_tag` (msgpack.py line 72). -/
def max_tag : Nat := 100

/-- Class attribute `MsgPack.split_length` (msgpack.py line 73). -/
def split_length : Nat := 220

/-- The two tag counters of `MsgPack` (msgpack.py lines 89-90:
`self.nack_tag = 1`, `self.ack_tag = self.ack_threshold`). -/
structure TagState where
  nack_tag : Nat
  ack_tag : Nat
deriving DecidableEq

/-- Counter values set by `MsgPack.__init__` (msgpack.py lines 89-90). -/
def initTagState : TagState := ⟨1, ack_threshold⟩

/-- `MsgPack.__get_tag` (msgpack.py lines 223-239): return the current
counter for the requested range, then advance it, wrapping when the
incremented counter reaches the top of its range. -/
def get_tag (ack : Bool) (s : TagState) : Nat × TagState :=
  let tag := if ack then s.ack_tag else s.nack_tag
  if ack then
    let a := s.ack_tag + 1
    (tag, { s with ack_tag := if max_tag ≤ a then ack_threshold else a })
  else
    let n := s.nack_tag + 1
    (tag, { s with nack_tag := if ack_threshold ≤ n then 1 else n })

/-- The reachable-state invariant of the two counters: each stays inside
its own half-open range. -/
def TagInv (s : TagState) : Prop :=
  1 ≤ s.nack_tag ∧ s.nack_tag < ack_threshold ∧
    ack_threshold ≤ s.ack_tag ∧ s.ack_tag < max_tag

instance (s : TagState) : Decidable (TagInv s) := by
  unfold TagInv; infer_instance

/-- C7: the allocator keeps two independent counters; the no-ack counter
starts at 1, increments by 1 and wraps to 1 on reaching `ack_threshold`;
the ack counter starts at `ack_threshold`, increments by 1 and wraps to
`ack_threshold` on reaching `max_tag`; every allocation returns a tag
inside its own range, and the invariant is preserved by every allocation. -/
theorem c7_tag_allocator :
    (initTagState.nack_tag = 1 ∧ initTagState.ack_tag = ack_threshold ∧
      TagInv initTagState) ∧
    ∀ (s : TagState) (ack : Bool), TagInv s →
      TagInv (get_tag ack s).2 ∧
      ((get_tag ack s).1 = if ack then s.ack_tag else s.nack_tag) ∧
      (ack = true →
        ack_threshold ≤ (get_tag ack s).1 ∧ (get_tag ack s).1 < max_tag ∧
        (get_tag ack s).2.ack_tag =
          (if s.ack_tag + 1 = max_tag then ack_threshold else s.ack_tag + 1) ∧
        (get_tag ack s).2.nack_tag = s.nack_tag) ∧
      (ack = false →
        1 ≤ (get_tag ack s).1 ∧ (get_tag ack s).1 < ack_threshold ∧
        (get_tag ack s).2.nack_tag =
          (if s.nack_tag + 1 = ack_threshold then 1 else s.nack_tag + 1) ∧
        (get_tag ack s).2.ack_tag = s.ack_tag) := by
  refine ⟨⟨rfl, rfl, by decide⟩, ?_⟩
  intro s ack h
  obtain ⟨h1, h2, h3, h4⟩ := h
  unfold ack_threshold at h2 h3
  unfold max_tag at h4
  refine ⟨?_, by cases ack <;> simp [get_tag], ?_, ?_⟩
  · unfold TagInv get_tag ack_threshold max_tag
    cases ack <;> simp only [Bool.false_eq_true, if_true, if_false] <;>
      refine ⟨?_, ?_, ?_, ?_⟩ <;> first
        | omega
        | (split <;> omega)
  · intro hk
    subst hk
    unfold get_tag ack_threshold max_tag
    simp only [if_true]
    refine ⟨h3, h4, ?_, trivial⟩
    split <;> split <;> omega
  · intro hk
    subst hk
    unfold get_tag ack_threshold max_tag
    simp only [Bool.false_eq_true, if_false]
    refine ⟨h1, h2, ?_, trivial⟩
    split <;> split <;> omega

/-- Witness for C7 at the wrap points of both counters. -/
theorem c7_tag_allocator_witness :
    TagInv ⟨49, 99⟩ ∧
    (TagInv (get_tag true ⟨49, 99⟩).2 ∧
      ((get_tag true ⟨49, 99⟩).1 = if true then (99 : Nat) else 49) ∧
      (true = true →
        ack_threshold ≤ (get_tag true ⟨49, 99⟩).1 ∧
        (get_tag true ⟨49, 99⟩).1 < max_tag ∧
        (get_tag true ⟨49, 99⟩).2.ack_tag =
          (if 99 + 1 = max_tag then ack_threshold else 99 + 1) ∧
        (get_tag true ⟨49, 99⟩).2.nack_tag = 49) ∧
      (true = false →
        1 ≤ (get_tag true ⟨49, 99⟩).1 ∧
        (get_tag true ⟨49, 99⟩).1 < ack_threshold ∧
        (get_tag true ⟨49, 99⟩).2.nack_tag =
          (if 49 + 1 = ack_threshold then 1 else 49 + 1) ∧
        (get_tag true ⟨49, 99⟩).2.ack_tag = 99)) :=
  ⟨by decide, c7_tag_allocator.2 ⟨49, 99⟩ true (by decide)⟩

/-! ## Frame codec: packets, splitting, reassembly (`msgpack.py`) -/

/-- A decoded wire frame (class `Packet`, msgpack.py lines 26-41): `count`
is 1-based for fragments and 0 for a single-frame message, `total` is the
number of fragments, `tag` the sequence identifier, `data` the payload. -/
structure Packet where
  count : Nat
  total : Nat
  tag : Nat
  data : String
deriving DecidableEq

/-- The chunking loop of `MsgPack.split_messages_to_queue` (msgpack.py
lines 291-305): peel off `split_length`-char chunks until the rest is
empty.  The source assumes a positive split length; `L = 0` (on which the
Python loop would not terminate) is mapped to `[]`. -/
def chunksList (L : Nat) (s : List Char) : List (List Char) :=
  if h : L = 0 ∨ s = [] then []
  else s.take L :: chunksList L (s.drop L)
termination_by s.length
decreasing_by
  push_neg at h
  simp only [List.length_drop]
  have := List.length_pos.mpr h.2
  omega

/-- Concatenating the chunks gives back the original character list. -/
theorem chunksList_join (L : Nat) (hL : L ≠ 0) (s : List Char) :
    (chunksList L s).flatten = s := by
  rw [chunksList]
  split
  · rename_i h
    rcases h with h | h
    · exact absurd h hL
    · subst h; simp
  · rename_i h
    push_neg at h
    have hs0 : 0 < s.length := List.length_pos.mpr h.2
    have ih := chunksList_join L hL (s.drop L)
    simp [ih]
termination_by s.length
decreasing_by
  simp only [List.length_drop]
  omega

/-- The number of chunks is the ceiling of `length / L`. -/
theorem chunksList_length (L : Nat) (hL : L ≠ 0) (s : List Char) :
    (chunksList L s).length = (s.length + L - 1) / L := by
  rw [chunksList]
  split
  · rename_i h
    rcases h with h | h
    · exact absurd h hL
    · subst h
      simp only [List.length_nil]
      exact (Nat.div_eq_of_lt (by omega)).symm
  · rename_i h
    push_neg at h
    have hs : 0 < s.length := List.length_pos.mpr h.2
    have ih := chunksList_length L hL (s.drop L)
    simp only [List.length_cons, ih, List.length_drop]
    rcases Nat.lt_or_ge L s.length with hlt | hge
    · have e1 : s.length - L + L - 1 = s.length - 1 := by omega
      have e2 : s.length + L - 1 = (s.length - 1) + L := by omega
      rw [e1, e2, Nat.add_div_right _ (Nat.pos_of_ne_zero hL)]
    · have e0 : s.length - L + L - 1 = L - 1 := by omega
      rw [e0, Nat.div_eq_of_lt (by omega)]
      have e1 : (1 : Nat) * L ≤ s.length + L - 1 := by omega
      have e2 : s.length + L - 1 < (1 + 1) * L := by omega
      rw [Nat.div_eq_of_lt_le e1 e2]
termination_by s.length
decreasing_by
  simp only [List.length_drop]
  omega

/-- Every chunk of a positive split is non-empty. -/
theorem chunksList_ne_nil (L : Nat) (hL : L ≠ 0) (s : List Char) :
    ∀ c ∈ chunksList L s, c ≠ [] := by
  rw [chunksList]
  split
  · simp
  · rename_i h
    push_neg at h
    intro c hc
    rcases List.mem_cons.mp hc with rfl | hc
    · have hs := List.length_pos.mpr h.2
      have hlen : (s.take L).length = min L s.length := List.length_take L s
      intro hnil
      rw [hnil] at hlen
      simp only [List.length_nil] at hlen
      omega
    · have hs0 : 0 < s.length := List.length_pos.mpr h.2
      exact chunksList_ne_nil L hL (s.drop L) c hc
termination_by s.length
decreasing_by
  simp only [List.length_drop]
  omega

/-- `MsgPack.split_messages_to_queue` (msgpack.py lines 267-319), after the
tag has been allocated: a message of at most `L` characters becomes the
single frame `|tag|data`; a longer one is chunked into `N` fragments
enqueued as `i/N|tag|chunk_i` for `i = 1..N`.  The function returns the
frames in the order they are put on the queue. -/
def split_messages_to_queue (L tag : Nat) (data : String) : List Packet :=
  if data.length ≤ L then [⟨0, 0, tag, data⟩]
  else
    let packets := chunksList L data.data
    let total := packets.length
    packets.enum.map fun ic => ⟨ic.1 + 1, total, tag, ⟨ic.2⟩⟩

/-- Reassembly buffers (`MsgPack.buffers`, msgpack.py line 65): per tag an
optional `(received, total, slots)` triple. -/
def Buffers : Type := Nat → Option (Nat × Nat × List String)

/-- The empty buffer table set up by `MsgPack.__init__`. -/
def emptyBuffers : Buffers := fun _ => none

/-- Result of processing one inbound frame: the new buffer table, the
record texts put on `processed_data`, and the tags put on `ack_stream`. -/
structure ProcResult where
  buffers : Buffers
  outputs : List String
  acks : List Nat

/-- `MsgPack.__process_packet` (msgpack.py lines 105-186) on an already
parsed `Packet`; the parse of the raw frame by `Packet.unpack` (line
110) and the `ValueError` drop path of a non-matching frame (lines
182-184) are `packet_unpack` and `process_packet_str` below.  A
`count = 0` frame clears any stale buffer, forwards
its payload and acks when `tag ≥ ack_threshold`.  A fragment is stored at
slot `count - 1` after the buffer is (re)initialised on a missing buffer
or a `total` mismatch; `received` is incremented by one; when
`total = count` or `received = total` and every slot is non-empty the
concatenation is emitted and the buffer dropped.  Python exception paths
are reflected: an out-of-range `count` raises `IndexError` at the slot
store (state unchanged, nothing emitted, no ack), and the `pop` on the
completion path raises `KeyError` when the tag had no stored buffer,
skipping only the ack push (nothing later observes the difference because
the dict held no entry for that tag anyway).

`fragment_update` is the part of the fragment branch after `received`,
`total` and the slot list have been determined (msgpack.py lines 144-180);
`process_packet` below supplies them from the buffer-lookup lines 137-145. -/
def fragment_update (buffers : Buffers) (p : Packet) (received total : Nat)
    (buf : List String) : ProcResult :=
  if p.count - 1 < buf.length then
    if total = p.count ∨ received = total then
      if (buf.set (p.count - 1) p.data).all (fun sl => sl.length != 0) then
        { buffers := fun t => if t = p.tag then none else buffers t
          outputs := [String.join (buf.set (p.count - 1) p.data)]
          acks := if (buffers p.tag).isSome then
                    (if ack_threshold ≤ p.tag then [p.tag] else []) else [] }
      else
        { buffers := fun t =>
            if t = p.tag then some (received, total, buf.set (p.count - 1) p.data)
            else buffers t
          outputs := []
          acks := if ack_threshold ≤ p.tag then [p.tag] else [] }
    else
      { buffers := fun t =>
          if t = p.tag then some (received, total, buf.set (p.count - 1) p.data)
          else buffers t
        outputs := []
        acks := if ack_threshold ≤ p.tag then [p.tag] else [] }
  else
    { buffers := buffers, outputs := [], acks := [] }

/-- Dispatch of `MsgPack.__process_packet`: single-frame branch (lines
112-129), then the fragment branch through `fragment_update` with the
`(received, total, buffer)` triple determined by lines 137-145. -/
def process_packet (buffers : Buffers) (p : Packet) : ProcResult :=
  if p.count = 0 then
    { buffers := fun t => if t = p.tag then none else buffers t
      outputs := [p.data]
      acks := if ack_threshold ≤ p.tag then [p.tag] else [] }
  else
    match buffers p.tag with
    | none => fragment_update buffers p (0 + 1) p.total (List.replicate p.total "")
    | some (r, t, buf) =>
        if t ≠ p.total then
          fragment_update buffers p (0 + 1) p.total (List.replicate p.total "")
        else fragment_update buffers p (r + 1) t buf

/-- One iteration of the codec loop (msgpack.py lines 197-221): process
the next inbound frame against the accumulated state. -/
def plStep (acc : ProcResult) (p : Packet) : ProcResult :=
  { buffers := (process_packet acc.buffers p).buffers
    outputs := acc.outputs ++ (process_packet acc.buffers p).outputs
    acks := acc.acks ++ (process_packet acc.buffers p).acks }

/-- Sequential processing of a list of frames by the codec loop
(msgpack.py lines 197-221), accumulating emissions and acks. -/
def process_list (buffers : Buffers) (ps : List Packet) : ProcResult :=
  ps.foldl plStep { buffers := buffers, outputs := [], acks := [] }

theorem foldl_plStep_acc (ps : List Packet) :
    ∀ (b : Buffers) (os : List String) (as : List Nat),
      ps.foldl plStep ⟨b, os, as⟩ =
        { buffers := (process_list b ps).buffers
          outputs := os ++ (process_list b ps).outputs
          acks := as ++ (process_list b ps).acks } := by
  induction ps with
  | nil => intro b os as; simp [process_list]
  | cons p ps ih =>
      intro b os as
      simp only [List.foldl_cons, process_list]
      have hstep : ∀ (os2 : List String) (as2 : List Nat),
          plStep ⟨b, os2, as2⟩ p =
            ⟨(process_packet b p).buffers, os2 ++ (process_packet b p).outputs,
              as2 ++ (process_packet b p).acks⟩ := fun _ _ => rfl
      rw [hstep, hstep, ih, ih]
      simp [List.append_assoc]

theorem process_list_cons (b : Buffers) (p : Packet) (ps : List Packet) :
    process_list b (p :: ps) =
      { buffers := (process_list (process_packet b p).buffers ps).buffers
        outputs := (process_packet b p).outputs ++
          (process_list (process_packet b p).buffers ps).outputs
        acks := (process_packet b p).acks ++
          (process_list (process_packet b p).buffers ps).acks } := by
  show List.foldl plStep _ (p :: ps) = _
  simp only [List.foldl_cons]
  have hstep : plStep ⟨b, [], []⟩ p =
      ⟨(process_packet b p).buffers, (process_packet b p).outputs,
        (process_packet b p).acks⟩ := by
    simp [plStep]
  rw [hstep, foldl_plStep_acc]

/-! ## Wire frames: `Packet.__str__` and `Packet.unpack` (msgpack.py) -/

/-- Decimal digit character, `'0'..'9'` for `n < 10`. -/
def digitChar (n : Nat) : Char := Char.ofNat (48 + n)

/-- Decimal digits of a natural number, most significant first; the fuel
argument only bounds the recursion and `n + 1` always suffices. -/
def natToDigitsAux : Nat → Nat → List Char → List Char
  | 0, _, acc => acc
  | fuel + 1, n, acc =>
      if n < 10 then digitChar n :: acc
      else natToDigitsAux fuel (n / 10) (digitChar (n % 10) :: acc)

/-- Python `str(int)` on a natural number: its decimal digit string. -/
def natRepr (n : Nat) : String := ⟨natToDigitsAux (n + 1) n []⟩

/-- The value of a decimal digit string, `int(s)` on an all-digit `s`. -/
def natOfDigits (cs : List Char) : Nat :=
  cs.foldl (fun n c => n * 10 + (c.toNat - ('0').toNat)) 0

/-- `Packet.__str__` (msgpack.py lines 38-41): `|tag|data` for a
single-frame message (`count = 0`), `count/total|tag|data` for a
fragment, with the integer fields in Python's decimal rendering. -/
def packet_str (p : Packet) : String :=
  if p.count = 0 then "|" ++ natRepr p.tag ++ "|" ++ p.data
  else
    natRepr p.count ++ "/" ++ natRepr p.total ++ "|" ++ natRepr p.tag ++
      "|" ++ p.data

/-- Payload admitted by the `(.+)$` tail of `PACKET_REGEX`: the pattern
is compiled without `re.DOTALL` (msgpack.py line 8), so `.` never
matches a newline. -/
def noNewline (cs : List Char) : Bool := cs.all fun c => c != '\n'

/-- The `\|([0-9]+)\|(.+)$` tail of `PACKET_REGEX`: a `|`, the maximal
digit run as the tag, another `|`, then a non-empty newline-free rest as
the payload.  `count` and `total` are passed in from the optional head
group. -/
def packet_unpack_tail (count total : Nat) (rest : List Char) :
    Option Packet :=
  if rest.head? = some '|' then
    if (rest.tail.dropWhile Char.isDigit).head? = some '|' ∧
        rest.tail.takeWhile Char.isDigit ≠ [] ∧
        (rest.tail.dropWhile Char.isDigit).tail ≠ [] ∧
        noNewline (rest.tail.dropWhile Char.isDigit).tail = true then
      some ⟨count, total, natOfDigits (rest.tail.takeWhile Char.isDigit),
        ⟨(rest.tail.dropWhile Char.isDigit).tail⟩⟩
    else none
  else none

/-- `PACKET_REGEX.fullmatch` on a character list (msgpack.py line 8):
`^(([0-9]+)\/([0-9]+))?\|([0-9]+)\|(.+)$`.  The optional head group
matches greedily - a maximal digit run, `/`, another non-empty digit run
- and is skipped when it cannot match at position 0, in which case the
mandatory `\|` must match the first character; compiled without
`re.DOTALL`, so the `(.+)` payload never spans a newline. -/
def packet_unpack_core (cs : List Char) : Option Packet :=
  if (cs.dropWhile Char.isDigit).head? = some '/' then
    if cs.takeWhile Char.isDigit = [] then packet_unpack_tail 0 0 cs
    else if (cs.dropWhile Char.isDigit).tail.takeWhile Char.isDigit = []
      then none
    else
      packet_unpack_tail (natOfDigits (cs.takeWhile Char.isDigit))
        (natOfDigits
          ((cs.dropWhile Char.isDigit).tail.takeWhile Char.isDigit))
        ((cs.dropWhile Char.isDigit).tail.dropWhile Char.isDigit)
  else packet_unpack_tail 0 0 cs

/-- `Packet.unpack` (msgpack.py lines 43-56): parse the frame with
`PACKET_REGEX.fullmatch`; a frame that does not match raises
`ValueError`, hence `none`. -/
def packet_unpack (s : String) : Option Packet := packet_unpack_core s.data

/-- `MsgPack.__process_packet` on the raw queue string (msgpack.py line
110): `Packet.unpack` parses the frame first; on `ValueError` the
handler at lines 182-184 logs and drops the frame with no state change
and nothing emitted. -/
def process_packet_str (buffers : Buffers) (msg : String) : ProcResult :=
  match packet_unpack msg with
  | none => { buffers := buffers, outputs := [], acks := [] }
  | some p => process_packet buffers p

/-- `MsgPack.__process_inbound_packet` (msgpack.py lines 188-195): a
message starting with `ACK:` goes to `__process_ack` (which only invokes
the ack callback - buffers, `processed_data` and `ack_stream` are
untouched); every other message goes to `__process_packet`. -/
def process_inbound_str (buffers : Buffers) (msg : String) : ProcResult :=
  if msg.data.take 4 = ("ACK:" : String).data then
    { buffers := buffers, outputs := [], acks := [] }
  else process_packet_str buffers msg

/-- One iteration of the codec loop on the raw queue string. -/
def plStepS (acc : ProcResult) (msg : String) : ProcResult :=
  { buffers := (process_inbound_str acc.buffers msg).buffers
    outputs := acc.outputs ++ (process_inbound_str acc.buffers msg).outputs
    acks := acc.acks ++ (process_inbound_str acc.buffers msg).acks }

/-- Sequential processing of a list of raw queue strings by the codec
loop (msgpack.py lines 197-221), accumulating emissions and acks. -/
def process_list_str (buffers : Buffers) (msgs : List String) : ProcResult :=
  msgs.foldl plStepS { buffers := buffers, outputs := [], acks := [] }

theorem digitChar_isDigit (n : Nat) (h : n < 10) :
    (digitChar n).isDigit = true := by
  interval_cases n <;> decide

theorem digitChar_val (n : Nat) (h : n < 10) :
    (digitChar n).toNat - ('0').toNat = n := by
  interval_cases n <;> decide

theorem natToDigitsAux_spec : ∀ fuel n (acc : List Char), n < fuel →
    ∃ ds, natToDigitsAux fuel n acc = ds ++ acc ∧ ds ≠ [] ∧
      (∀ c ∈ ds, c.isDigit = true) ∧ natOfDigits ds = n := by
  intro fuel
  induction fuel with
  | zero => intro n acc h; omega
  | succ fuel ih =>
      intro n acc h
      by_cases h10 : n < 10
      · refine ⟨[digitChar n], by simp [natToDigitsAux, h10], by simp,
          ?_, ?_⟩
        · intro c hc
          rw [List.mem_singleton] at hc
          exact hc ▸ digitChar_isDigit n h10
        · simpa [natOfDigits] using digitChar_val n h10
      · push_neg at h10
        have hrec : n / 10 < fuel := by omega
        obtain ⟨ds, heq, hne, hdig, hval⟩ :=
          ih (n / 10) (digitChar (n % 10) :: acc) hrec
        refine ⟨ds ++ [digitChar (n % 10)], ?_, by simp, ?_, ?_⟩
        · rw [natToDigitsAux, if_neg (by omega), heq]
          simp
        · intro c hc
          rcases List.mem_append.mp hc with hc | hc
          · exact hdig c hc
          · rw [List.mem_singleton] at hc
            exact hc ▸ digitChar_isDigit _ (Nat.mod_lt n (by omega))
        · have hstep : natOfDigits (ds ++ [digitChar (n % 10)]) =
              natOfDigits ds * 10 + ((digitChar (n % 10)).toNat -
                ('0').toNat) := by
            simp [natOfDigits, List.foldl_append]
          rw [hstep, hval, digitChar_val _ (Nat.mod_lt n (by omega))]
          omega

theorem natRepr_spec (n : Nat) :
    (natRepr n).data ≠ [] ∧ (∀ c ∈ (natRepr n).data, c.isDigit = true) ∧
      natOfDigits (natRepr n).data = n := by
  obtain ⟨ds, heq, hne, hdig, hval⟩ :=
    natToDigitsAux_spec (n + 1) n [] (by omega)
  have hd : (natRepr n).data = ds := by
    show natToDigitsAux (n + 1) n [] = ds
    rw [heq, List.append_nil]
  rw [hd]
  exact ⟨hne, hdig, hval⟩

theorem takeWhile_append_cons (P : Char → Bool) (ds : List Char)
    (c : Char) (r : List Char) (h : ∀ x ∈ ds, P x = true)
    (hc : P c = false) :
    (ds ++ c :: r).takeWhile P = ds ∧ (ds ++ c :: r).dropWhile P = c :: r := by
  induction ds with
  | nil => simp [List.takeWhile_cons, List.dropWhile_cons, hc]
  | cons d ds ih =>
      have hd : P d = true := h d (by simp)
      have ih2 := ih fun x hx => h x (by simp [hx])
      simp [List.takeWhile_cons, List.dropWhile_cons, hd, ih2.1, ih2.2]

theorem isDigit_ne_chars (c : Char) (h : c.isDigit = true) :
    c ≠ '/' ∧ c ≠ '|' ∧ c ≠ '\n' ∧ c ≠ 'A' := by
  refine ⟨?_, ?_, ?_, ?_⟩ <;> rintro rfl <;> exact absurd h (by decide)

/-- Character-list form of a fragment's wire string. -/
theorem packet_str_data (p : Packet) (hc : 0 < p.count) :
    (packet_str p).data =
      (natRepr p.count).data ++ '/' ::
        ((natRepr p.total).data ++ '|' ::
          ((natRepr p.tag).data ++ '|' :: p.data.data)) := by
  rw [packet_str, if_neg (by omega)]
  show (natRepr p.count).data ++ ("/" : String).data ++
      (natRepr p.total).data ++ ("|" : String).data ++
      (natRepr p.tag).data ++ ("|" : String).data ++ p.data.data = _
  have hslash : ("/" : String).data = ['/'] := rfl
  have hbar : ("|" : String).data = ['|'] := rfl
  rw [hslash, hbar]
  simp

/-- The regex accepts a well-formed fragment wire image and recovers the
three digit runs and the payload. -/
theorem packet_unpack_core_frag (dc dt dg pd : List Char)
    (hdc : ∀ c ∈ dc, c.isDigit = true) (hdcne : dc ≠ [])
    (hdt : ∀ c ∈ dt, c.isDigit = true) (hdtne : dt ≠ [])
    (hdg : ∀ c ∈ dg, c.isDigit = true) (hdgne : dg ≠ [])
    (hpd : pd ≠ []) (hnl : noNewline pd = true) :
    packet_unpack_core (dc ++ '/' :: (dt ++ '|' :: (dg ++ '|' :: pd))) =
      some ⟨natOfDigits dc, natOfDigits dt, natOfDigits dg, ⟨pd⟩⟩ := by
  have hspan1 := takeWhile_append_cons Char.isDigit dc '/'
    (dt ++ '|' :: (dg ++ '|' :: pd)) hdc (by decide)
  have hspan2 := takeWhile_append_cons Char.isDigit dt '|'
    (dg ++ '|' :: pd) hdt (by decide)
  have hspan3 := takeWhile_append_cons Char.isDigit dg '|' pd hdg
    (by decide)
  rw [packet_unpack_core, hspan1.1, hspan1.2]
  simp only [List.head?_cons, List.tail_cons]
  rw [if_pos trivial, if_neg hdcne, hspan2.1, hspan2.2]
  rw [if_neg hdtne]
  rw [packet_unpack_tail]
  simp only [List.head?_cons, List.tail_cons]
  rw [if_pos trivial, hspan3.1, hspan3.2]
  simp only [List.head?_cons, List.tail_cons]
  rw [if_pos (show (True : Prop) ∧ dg ≠ [] ∧ pd ≠ [] ∧ noNewline pd = true
    from ⟨trivial, hdgne, hpd, hnl⟩)]

/-- Wire round trip of a fragment frame: `Packet.unpack` recovers the
packet from `str(Packet)` when the payload is non-empty and
newline-free. -/
theorem packet_unpack_packet_str (p : Packet) (hc : 0 < p.count)
    (hd : p.data.data ≠ []) (hn : ∀ c ∈ p.data.data, c ≠ '\n') :
    packet_unpack (packet_str p) = some p := by
  obtain ⟨hcne, hcdig, hcval⟩ := natRepr_spec p.count
  obtain ⟨htne, htdig, htval⟩ := natRepr_spec p.total
  obtain ⟨hgne, hgdig, hgval⟩ := natRepr_spec p.tag
  have hnl : noNewline p.data.data = true := by
    rw [noNewline, List.all_eq_true]
    intro c hcm
    simpa using hn c hcm
  show packet_unpack_core (packet_str p).data = some p
  rw [packet_str_data p hc,
    packet_unpack_core_frag (natRepr p.count).data (natRepr p.total).data
      (natRepr p.tag).data p.data.data hcdig hcne htdig htne hgdig hgne
      hd hnl,
    hcval, htval, hgval]

/-- A fragment's wire string never takes the `ACK:` dispatch branch: it
begins with a decimal digit. -/
theorem process_inbound_str_frag (b : Buffers) (p : Packet)
    (hc : 0 < p.count) (hd : p.data.data ≠ [])
    (hn : ∀ c ∈ p.data.data, c ≠ '\n') :
    process_inbound_str b (packet_str p) = process_packet b p := by
  obtain ⟨hcne, hcdig, hcval⟩ := natRepr_spec p.count
  obtain ⟨d, ds, hds⟩ := List.exists_cons_of_ne_nil hcne
  have hdd : d.isDigit = true := hcdig d (by rw [hds]; simp)
  have hnotack : ¬ (packet_str p).data.take 4 = ("ACK:" : String).data := by
    intro hcon
    rw [packet_str_data p hc, hds, List.cons_append] at hcon
    have hhd : ((d :: (ds ++ '/' ::
        ((natRepr p.total).data ++ '|' ::
          ((natRepr p.tag).data ++ '|' :: p.data.data)))).take 4).head? =
        some d := rfl
    rw [hcon] at hhd
    have h2 : some 'A' = some d := hhd
    injection h2 with h3
    exact ((isDigit_ne_chars d hdd).2.2.2) h3.symm
  rw [process_inbound_str, if_neg hnotack, process_packet_str,
    packet_unpack_packet_str p hc hd hn]

/-- On a list of fragment frames whose wire strings all parse back, the
string-level codec loop agrees with the packet-level one. -/
theorem foldl_str_eq (ps : List Packet)
    (h : ∀ p ∈ ps, ∀ b, process_inbound_str b (packet_str p) =
      process_packet b p) :
    ∀ acc : ProcResult,
      (ps.map packet_str).foldl plStepS acc = ps.foldl plStep acc := by
  induction ps with
  | nil => intro acc; rfl
  | cons p ps ih =>
      intro acc
      simp only [List.map_cons, List.foldl_cons]
      have hstep : plStepS acc (packet_str p) = plStep acc p := by
        rw [plStepS, plStep, h p (by simp)]
      rw [hstep]
      exact ih (fun q hq => h q (List.mem_cons_of_mem p hq)) _

theorem process_list_str_eq (b : Buffers) (ps : List Packet)
    (h : ∀ p ∈ ps, ∀ b2, process_inbound_str b2 (packet_str p) =
      process_packet b2 p) :
    process_list_str b (ps.map packet_str) = process_list b ps :=
  foldl_str_eq ps h _

/-! ## Reassembly invariant for fragmented messages -/

/-- The fragment with 0-based index `i` that `split_messages_to_queue`
enqueues for a message whose chunk list is `parts`. -/
def fragOf (tag : Nat) (parts : List (List Char)) (i : Nat) : Packet :=
  ⟨i + 1, parts.length, tag, ⟨parts.getD i []⟩⟩

/-- Slot contents of the reassembly buffer after the fragments with
0-based indices `done` have been stored. -/
def slotsOf (parts : List (List Char)) (done : List Nat) : List String :=
  (List.range parts.length).map fun i => if i ∈ done then ⟨parts.getD i []⟩ else ""

/-- The buffer table while reassembling the fragments of one `tag`:
absent before the first fragment, then `(received, total, slots)`. -/
def bufOf (tag : Nat) (parts : List (List Char)) (done : List Nat) : Buffers :=
  fun t =>
    if t = tag then
      if done = [] then none
      else some (done.length, parts.length, slotsOf parts done)
    else none

theorem slotsOf_length (parts : List (List Char)) (done : List Nat) :
    (slotsOf parts done).length = parts.length := by
  simp [slotsOf]

theorem slotsOf_getElem (parts : List (List Char)) (done : List Nat) (i : Nat)
    (h : i < (slotsOf parts done).length) :
    (slotsOf parts done)[i] =
      if i ∈ done then (⟨parts.getD i []⟩ : String) else "" := by
  simp [slotsOf]

theorem slotsOf_nil (parts : List (List Char)) :
    slotsOf parts [] = List.replicate parts.length "" := by
  apply List.ext_getElem
  · simp [slotsOf_length]
  · intro i h1 h2
    rw [slotsOf_getElem parts [] i h1]
    simp

theorem slotsOf_set (parts : List (List Char)) (done : List Nat) (j : Nat)
    (hj : j < parts.length) :
    (slotsOf parts done).set j ⟨parts.getD j []⟩ = slotsOf parts (j :: done) := by
  apply List.ext_getElem
  · simp [slotsOf_length]
  · intro i h1 h2
    have hi : i < parts.length := by simpa [slotsOf_length] using h2
    rw [List.getElem_set,
      slotsOf_getElem parts (j :: done) i (by rw [slotsOf_length]; exact hi)]
    by_cases he : j = i
    · subst he
      simp
    · rw [if_neg he,
        slotsOf_getElem parts done i (by rw [slotsOf_length]; exact hi)]
      have hmem : (i ∈ j :: done) ↔ i ∈ done := by
        constructor
        · intro h
          rcases List.mem_cons.mp h with h | h
          · exact absurd h.symm he
          · exact h
        · exact List.mem_cons_of_mem j
      simp [hmem]

/-- A nodup list of `parts.length` indices below `parts.length` contains
every index. -/
theorem cover_of_full (N : Nat) (done : List Nat) (hnd : done.Nodup)
    (hsub : ∀ i ∈ done, i < N) (hlen : N ≤ done.length) :
    ∀ i < N, i ∈ done := by
  intro i hi
  have hsubset : done.toFinset ⊆ Finset.range N := by
    intro x hx
    exact Finset.mem_range.mpr (hsub x (List.mem_toFinset.mp hx))
  have hcard : (Finset.range N).card ≤ done.toFinset.card := by
    rw [Finset.card_range, List.toFinset_card_of_nodup hnd]
    exact hlen
  have : done.toFinset = Finset.range N :=
    Finset.eq_of_subset_of_card_le hsubset hcard
  have := this.symm ▸ Finset.mem_range.mpr hi
  exact List.mem_toFinset.mp this

/-- A list of fewer than `N` indices misses some index below `N`. -/
theorem exists_missing (N : Nat) (done : List Nat) (hlen : done.length < N) :
    ∃ i, i < N ∧ i ∉ done := by
  by_contra hcon
  push_neg at hcon
  have hsubset : Finset.range N ⊆ done.toFinset := by
    intro x hx
    exact List.mem_toFinset.mpr (hcon x (Finset.mem_range.mp hx))
  have := Finset.card_le_card hsubset
  rw [Finset.card_range] at this
  have := le_trans this (List.toFinset_card_le done)
  omega

/-- When `done` covers every index, the slots are exactly the chunks. -/
theorem slotsOf_cover (parts : List (List Char)) (done : List Nat)
    (hcov : ∀ i < parts.length, i ∈ done) :
    slotsOf parts done = parts.map fun c => (⟨c⟩ : String) := by
  apply List.ext_getElem
  · simp [slotsOf_length]
  · intro i h1 h2
    have hi : i < parts.length := by simpa [slotsOf_length] using h1
    rw [slotsOf_getElem parts done i h1, if_pos (hcov i hi)]
    simp [List.getD_eq_getElem, hi]

/-- Joining the per-chunk strings gives the string of the flattened
chunk list. -/
theorem string_join_map_mk (parts : List (List Char)) :
    String.join (parts.map fun c => (⟨c⟩ : String)) = ⟨parts.flatten⟩ := by
  have aux : ∀ (ps : List (List Char)) (acc : List Char),
      List.foldl (fun r s => r ++ s) (⟨acc⟩ : String)
          (ps.map fun c => (⟨c⟩ : String)) = ⟨acc ++ ps.flatten⟩ := by
    intro ps
    induction ps with
    | nil => intro acc; simp
    | cons c cs ih =>
        intro acc
        simp only [List.map_cons, List.foldl_cons]
        have hstep : (⟨acc⟩ : String) ++ ⟨c⟩ = ⟨acc ++ c⟩ := rfl
        rw [hstep, ih]
        simp [List.append_assoc]
  have h0 : ("" : String) = ⟨[]⟩ := rfl
  have := aux parts []
  simpa [String.join, h0] using this

theorem bufOf_nil (tag : Nat) (parts : List (List Char)) :
    bufOf tag parts [] = emptyBuffers := by
  funext t
  unfold bufOf emptyBuffers
  split <;> simp

/-- The buffer lookup of msgpack.py lines 137-145 always presents the
fragment branch with `(done.length + 1, parts.length, slotsOf parts done)`:
a missing buffer is initialised to `(0, total, [""] * total)`, which is
exactly the `done = []` slot state. -/
theorem process_packet_fragOf (tag : Nat) (parts : List (List Char))
    (done : List Nat) (j : Nat) :
    process_packet (bufOf tag parts done) (fragOf tag parts j) =
      fragment_update (bufOf tag parts done) (fragOf tag parts j)
        (done.length + 1) parts.length (slotsOf parts done) := by
  by_cases hdone : done = []
  · subst hdone
    simp [process_packet, bufOf, fragOf, slotsOf_nil]
  · obtain ⟨d, ds, rfl⟩ : ∃ d ds, done = d :: ds := by
      cases done with
      | nil => exact absurd rfl hdone
      | cons d ds => exact ⟨d, ds, rfl⟩
    simp [process_packet, bufOf, fragOf]

/-- One fragment step against the reassembly invariant: processing the
not-yet-seen fragment `j` either completes the message (when it is the
last missing fragment) - emitting the full text and dropping the buffer -
or stores the slot and advances `received` by one. -/
theorem fragment_update_step (tag : Nat) (parts : List (List Char))
    (done : List Nat) (j : Nat)
    (h2 : 2 ≤ parts.length)
    (hne : ∀ c ∈ parts, c ≠ [])
    (hj : j < parts.length)
    (hjd : j ∉ done)
    (hdsub : ∀ i ∈ done, i < parts.length)
    (hnd : done.Nodup)
    (hdlt : done.length < parts.length) :
    fragment_update (bufOf tag parts done) (fragOf tag parts j)
        (done.length + 1) parts.length (slotsOf parts done) =
      if done.length + 1 = parts.length then
        { buffers := fun _ => none
          outputs := [⟨parts.flatten⟩]
          acks := if ack_threshold ≤ tag then [tag] else [] }
      else
        { buffers := bufOf tag parts (j :: done)
          outputs := []
          acks := if ack_threshold ≤ tag then [tag] else [] } := by
  have hc : (fragOf tag parts j).count = j + 1 := rfl
  have ht : (fragOf tag parts j).tag = tag := rfl
  have hd : (fragOf tag parts j).data = ⟨parts.getD j []⟩ := rfl
  unfold fragment_update
  rw [hc, ht, hd]
  simp only [Nat.add_sub_cancel]
  rw [if_pos (show j < (slotsOf parts done).length by
        rw [slotsOf_length]; exact hj)]
  rw [slotsOf_set parts done j hj]
  by_cases hfin : done.length + 1 = parts.length
  · rw [if_pos (Or.inr hfin), if_pos hfin]
    have hcov : ∀ i < parts.length, i ∈ j :: done := by
      apply cover_of_full parts.length (j :: done)
        (List.nodup_cons.mpr ⟨hjd, hnd⟩)
      · intro i hi
        rcases List.mem_cons.mp hi with rfl | hi
        · exact hj
        · exact hdsub i hi
      · simp only [List.length_cons]
        omega
    have hall : ((slotsOf parts (j :: done)).all fun sl => sl.length != 0)
        = true := by
      rw [List.all_eq_true]
      intro sl hsl
      rw [slotsOf_cover parts _ hcov] at hsl
      obtain ⟨c, hcm, rfl⟩ := List.mem_map.mp hsl
      have hlen : (⟨c⟩ : String).length = c.length := rfl
      simp only [hlen, bne_iff_ne, ne_eq]
      have := List.length_pos.mpr (hne c hcm)
      omega
    rw [if_pos hall]
    have hB : (fun t => if t = tag then none else bufOf tag parts done t)
        = (fun _ : Nat => (none : Option (Nat × Nat × List String))) := by
      funext t
      by_cases h : t = tag
      · simp [h]
      · simp [h, bufOf]
    have hO : String.join (slotsOf parts (j :: done)) =
        (⟨parts.flatten⟩ : String) := by
      rw [slotsOf_cover parts _ hcov, string_join_map_mk]
    have hdne : done ≠ [] := by
      intro h
      subst h
      simp only [List.length_nil] at hfin
      omega
    have hA : (bufOf tag parts done tag).isSome = true := by
      simp [bufOf, hdne]
    rw [hB, hO]
    simp [hA]
  · rw [if_neg hfin]
    have hB : (fun t =>
        if t = tag then
          some (done.length + 1, parts.length, slotsOf parts (j :: done))
        else bufOf tag parts done t) = bufOf tag parts (j :: done) := by
      funext t
      by_cases h : t = tag
      · simp [h, bufOf]
      · simp [h, bufOf]
    by_cases hjN : parts.length = j + 1
    · rw [if_pos (Or.inl hjN)]
      obtain ⟨i, hiN, hinot⟩ :=
        exists_missing parts.length (j :: done)
          (by simp only [List.length_cons]; omega)
      have hilen : i < (slotsOf parts (j :: done)).length := by
        rw [slotsOf_length]; exact hiN
      have hsl : (slotsOf parts (j :: done))[i] = "" := by
        rw [slotsOf_getElem parts (j :: done) i hilen, if_neg hinot]
      have hall : ¬ ((slotsOf parts (j :: done)).all
          fun sl => sl.length != 0) = true := by
        rw [List.all_eq_true]
        push_neg
        refine ⟨"", ?_, by decide⟩
        rw [← hsl]
        exact List.getElem_mem _
      rw [if_neg hall, hB]
    · rw [if_neg (by push_neg; exact ⟨hjN, hfin⟩), hB]

/-- Per-fragment ack pushes accumulate to one ack per fragment. -/
theorem acks_append_replicate (tag n : Nat) :
    ((if ack_threshold ≤ tag then [tag] else []) ++
        (if ack_threshold ≤ tag then List.replicate n tag else [])) =
      (if ack_threshold ≤ tag then List.replicate (n + 1) tag else []) := by
  by_cases htag : ack_threshold ≤ tag <;> simp [htag, List.replicate_succ]

/-- Processing any duplicate-free list of outstanding fragment indices
from the invariant state: either it supplies the last missing fragments
and exactly the full text is emitted with the buffer dropped, or the
buffer advances to the larger index set with nothing emitted.  One ack is
pushed per fragment when the tag is in the ack range. -/
theorem process_run (tag : Nat) (parts : List (List Char))
    (h2 : 2 ≤ parts.length) (hne : ∀ c ∈ parts, c ≠ []) :
    ∀ (l done : List Nat),
      (l ++ done).Nodup →
      (∀ i ∈ l ++ done, i < parts.length) →
      done.length < parts.length →
      l.length + done.length ≤ parts.length →
      process_list (bufOf tag parts done) (l.map (fragOf tag parts)) =
        if l.length + done.length = parts.length then
          { buffers := fun _ => none
            outputs := [⟨parts.flatten⟩]
            acks := if ack_threshold ≤ tag then List.replicate l.length tag
                    else [] }
        else
          { buffers := bufOf tag parts (l.reverse ++ done)
            outputs := []
            acks := if ack_threshold ≤ tag then List.replicate l.length tag
                    else [] } := by
  intro l
  induction l with
  | nil =>
      intro done hnd hsub hdlt hlen
      rw [if_neg (by simp only [List.length_nil]; omega)]
      simp [process_list, List.reverse_nil]
  | cons j l ih =>
      intro done hnd hsub hdlt hlen
      have hj : j < parts.length := hsub j (by simp)
      have hjd : j ∉ done := by
        have hh := (List.nodup_cons.mp hnd).1
        intro hmem
        exact hh (List.mem_append_right l hmem)
      have hdsub : ∀ i ∈ done, i < parts.length := fun i hi =>
        hsub i (List.mem_append_right (j :: l) hi)
      have hnddone : done.Nodup :=
        (List.nodup_append.mp (List.nodup_cons.mp hnd).2).2.1
      have hlen1 : l.length + 1 + done.length ≤ parts.length := by
        simp only [List.length_cons] at hlen
        omega
      simp only [List.map_cons, List.length_cons]
      rw [process_list_cons, process_packet_fragOf,
        fragment_update_step tag parts done j h2 hne hj hjd hdsub hnddone hdlt]
      by_cases hfin : done.length + 1 = parts.length
      · rw [if_pos hfin]
        have hll : l.length = 0 := by omega
        rw [if_pos (show l.length + 1 + done.length = parts.length by omega)]
        have hl0 : l = [] := List.length_eq_zero.mp hll
        subst hl0
        have hproc : process_list (fun _ => none)
            (List.map (fragOf tag parts) []) = ⟨fun _ => none, [], []⟩ := rfl
        rw [hproc]
        simp [List.replicate_succ]
      · rw [if_neg hfin]
        have hnd2 : (l ++ j :: done).Nodup := by
          apply List.nodup_middle.mpr
          simpa using hnd
        have hsub2 : ∀ i ∈ l ++ j :: done, i < parts.length := by
          intro i hi
          rcases List.mem_append.mp hi with hi | hi
          · exact hsub i (List.mem_append_left done (List.mem_cons_of_mem j hi))
          · rcases List.mem_cons.mp hi with rfl | hi
            · exact hj
            · exact hdsub i hi
        have hdlt2 : (j :: done).length < parts.length := by
          simp only [List.length_cons]
          omega
        have hlen2 : l.length + (j :: done).length ≤ parts.length := by
          simp only [List.length_cons]
          omega
        rw [ih (j :: done) hnd2 hsub2 hdlt2 hlen2]
        simp only [List.length_cons]
        by_cases hN : l.length + 1 + done.length = parts.length
        · rw [if_pos (show l.length + (done.length + 1) = parts.length
              by omega), if_pos hN]
          simp [acks_append_replicate]
        · rw [if_neg (show ¬ l.length + (done.length + 1) = parts.length
              by omega), if_neg hN]
          have hrev : l.reverse ++ j :: done = (j :: l).reverse ++ done := by
            simp [List.reverse_cons, List.append_assoc]
          rw [hrev]
          simp [acks_append_replicate]

/-- The fragment list produced by the encoder, indexed form. -/
theorem split_eq_map_fragOf (L tag : Nat) (T : String) (h : ¬ T.length ≤ L) :
    split_messages_to_queue L tag T =
      (List.range (chunksList L T.data).length).map
        (fragOf tag (chunksList L T.data)) := by
  unfold split_messages_to_queue
  rw [if_neg h]
  apply List.ext_getElem
  · simp
  · intro i h1 h2
    have hi : i < (chunksList L T.data).length := by
      simpa using h1
    simp [List.getElem_map, List.getElem_enum, List.getElem_range, fragOf,
      List.getElem?_eq_getElem hi]

/-- C3 (amended: the record text must be newline-free): a record text
longer than the split length is encoded as exactly `ceil(len/L)`
fragments carrying counts `1..N`, the common total `N` and the one
allocated tag, whose payloads concatenate to the original text; and
feeding the WIRE frames (the `str(Packet)` strings, each re-parsed by
`Packet.unpack`) of those fragments to the decoder in any order emits
exactly the original text once and deletes the buffer for that tag.  For
a text containing a newline the decode half fails on the program:
`PACKET_REGEX` is compiled without `re.DOTALL`, so the frame carrying
the newline never parses and is dropped - see the counterexample. -/
theorem c3_fragmentation_roundtrip (L tag : Nat) (T : String) (lp : List Packet)
    (hL : 0 < L) (hlen : L < T.length) (hnl : ∀ c ∈ T.data, c ≠ '\n')
    (hperm : lp.Perm (split_messages_to_queue L tag T)) :
    (split_messages_to_queue L tag T).length = (T.length + L - 1) / L ∧
    (split_messages_to_queue L tag T).map Packet.count =
      List.range' 1 ((split_messages_to_queue L tag T).length) ∧
    (∀ p ∈ split_messages_to_queue L tag T,
      p.total = (split_messages_to_queue L tag T).length ∧ p.tag = tag) ∧
    String.join ((split_messages_to_queue L tag T).map Packet.data) = T ∧
    (process_list_str emptyBuffers (lp.map packet_str)).outputs = [T] ∧
    (process_list_str emptyBuffers (lp.map packet_str)).buffers tag =
      none := by
  have hLne : L ≠ 0 := Nat.pos_iff_ne_zero.mp hL
  have hTdata : T.length = T.data.length := rfl
  have hsplitlen : ¬ T.length ≤ L := by omega
  have hsplit := split_eq_map_fragOf L tag T hsplitlen
  have hparts_len : (chunksList L T.data).length = (T.length + L - 1) / L := by
    rw [chunksList_length L hLne T.data, ← hTdata]
  have hne : ∀ c ∈ chunksList L T.data, c ≠ [] := chunksList_ne_nil L hLne T.data
  have hN2 : 2 ≤ (chunksList L T.data).length := by
    rw [hparts_len]
    rw [Nat.le_div_iff_mul_le hL]
    omega
  have hlen_split : (split_messages_to_queue L tag T).length =
      (chunksList L T.data).length := by
    rw [hsplit]
    simp
  have hTeta : (⟨T.data⟩ : String) = T := rfl
  have hflat : (chunksList L T.data).flatten = T.data :=
    chunksList_join L hLne T.data
  refine ⟨by rw [hlen_split, hparts_len], ?_, ?_, ?_, ?_⟩
  · rw [hlen_split, hsplit]
    apply List.ext_getElem
    · simp [List.length_range']
    · intro i h1 h2
      simp only [List.getElem_map, List.getElem_range, fragOf,
        List.getElem_range']
      omega
  · intro p hp
    rw [hsplit] at hp
    obtain ⟨i, hi, rfl⟩ := List.mem_map.mp hp
    exact ⟨by rw [hlen_split]; rfl, rfl⟩
  · rw [hsplit, List.map_map]
    have hdata : ((List.range (chunksList L T.data).length).map
        (Packet.data ∘ fragOf tag (chunksList L T.data))) =
        (chunksList L T.data).map fun c => (⟨c⟩ : String) := by
      apply List.ext_getElem
      · simp
      · intro i h1 h2
        have hi : i < (chunksList L T.data).length := by simpa using h1
        simp only [List.getElem_map, List.getElem_range, Function.comp,
          fragOf, List.getD_eq_getElem _ _ hi]
    rw [hdata, string_join_map_mk, hflat, hTeta]
  · -- decode of an arbitrary permutation, through the wire strings
    have hbridge : process_list_str emptyBuffers (lp.map packet_str) =
        process_list emptyBuffers lp := by
      apply process_list_str_eq
      intro p hp b2
      have hp2 := hperm.mem_iff.mp hp
      rw [hsplit] at hp2
      obtain ⟨i, hi, rfl⟩ := List.mem_map.mp hp2
      have hiN : i < (chunksList L T.data).length := List.mem_range.mp hi
      apply process_inbound_str_frag
      · show 0 < i + 1
        omega
      · show (chunksList L T.data).getD i [] ≠ []
        rw [List.getD_eq_getElem _ _ hiN]
        exact hne _ (List.getElem_mem _)
      · intro c hcm
        have hcm2 : c ∈ (chunksList L T.data).getD i [] := hcm
        rw [List.getD_eq_getElem _ _ hiN] at hcm2
        have hcm3 : c ∈ (chunksList L T.data).flatten :=
          List.mem_flatten.mpr ⟨_, List.getElem_mem _, hcm2⟩
        rw [hflat] at hcm3
        exact hnl c hcm3
    rw [hbridge]
    have hmemfrag : ∀ p ∈ lp,
        fragOf tag (chunksList L T.data) (p.count - 1) = p := by
      intro p hp
      have hp2 := hperm.mem_iff.mp hp
      rw [hsplit] at hp2
      obtain ⟨i, hi, rfl⟩ := List.mem_map.mp hp2
      have hred : (fragOf tag (chunksList L T.data) i).count - 1 = i := rfl
      rw [hred]
    have hlp : (lp.map fun p : Packet => p.count - 1).map
        (fragOf tag (chunksList L T.data)) = lp := by
      rw [List.map_map]
      have hcg := List.map_congr_left (l := lp)
        (f := fragOf tag (chunksList L T.data) ∘ fun p : Packet => p.count - 1)
        (g := id) (fun p hp => hmemfrag p hp)
      rw [hcg, List.map_id]
    have hσperm : (lp.map fun p : Packet => p.count - 1).Perm
        (List.range (chunksList L T.data).length) := by
      have h1 := hperm.map (fun p : Packet => p.count - 1)
      rw [hsplit, List.map_map] at h1
      have h2 : ((List.range (chunksList L T.data).length).map
          ((fun p : Packet => p.count - 1) ∘
            fragOf tag (chunksList L T.data))) =
          List.range (chunksList L T.data).length := by
        have hcg := List.map_congr_left
          (l := List.range (chunksList L T.data).length)
          (f := (fun (p : Packet) => p.count - 1) ∘
            fragOf tag (chunksList L T.data))
          (g := id) (fun i hi => rfl)
        rw [hcg, List.map_id]
      rw [h2] at h1
      exact h1
    have hσnodup : ((lp.map fun p : Packet => p.count - 1) ++ ([] : List Nat)).Nodup := by
      rw [List.append_nil]
      exact hσperm.nodup_iff.mpr (List.nodup_range _)
    have hσsub : ∀ i ∈ (lp.map fun p : Packet => p.count - 1) ++ ([] : List Nat),
        i < (chunksList L T.data).length := by
      intro i hi
      rw [List.append_nil] at hi
      have hh := hσperm.mem_iff.mp hi
      exact List.mem_range.mp hh
    have hσlen : (lp.map fun p : Packet => p.count - 1).length +
        ([] : List Nat).length ≤ (chunksList L T.data).length := by
      simp only [List.length_nil, Nat.add_zero, List.length_map]
      rw [hperm.length_eq, hlen_split]
    have hrun := process_run tag (chunksList L T.data) hN2 hne
      (lp.map fun p : Packet => p.count - 1) [] hσnodup hσsub
      (by simp only [List.length_nil]; omega) hσlen
    rw [bufOf_nil, hlp] at hrun
    have hcond : (lp.map fun p : Packet => p.count - 1).length +
        ([] : List Nat).length = (chunksList L T.data).length := by
      simp only [List.length_nil, Nat.add_zero, List.length_map]
      rw [hperm.length_eq, hlen_split]
    rw [if_pos hcond] at hrun
    rw [hrun, hflat, hTeta]
    exact ⟨rfl, rfl⟩

/-- Witness for C3: the five-character text `abcde` with split length 2
becomes three fragments, and the decoder reassembles it from the wire
strings of the order 3, 1, 2. -/
theorem c3_fragmentation_roundtrip_witness :
    (split_messages_to_queue 2 60 "abcde").length =
      ("abcde".length + 2 - 1) / 2 ∧
    (split_messages_to_queue 2 60 "abcde").map Packet.count =
      List.range' 1 ((split_messages_to_queue 2 60 "abcde").length) ∧
    (∀ p ∈ split_messages_to_queue 2 60 "abcde",
      p.total = (split_messages_to_queue 2 60 "abcde").length ∧
        p.tag = 60) ∧
    String.join ((split_messages_to_queue 2 60 "abcde").map Packet.data) =
      "abcde" ∧
    (process_list_str emptyBuffers
      (([⟨3, 3, 60, "e"⟩, ⟨1, 3, 60, "ab"⟩, ⟨2, 3, 60, "cd"⟩] :
        List Packet).map packet_str)).outputs = ["abcde"] ∧
    (process_list_str emptyBuffers
      (([⟨3, 3, 60, "e"⟩, ⟨1, 3, 60, "ab"⟩, ⟨2, 3, 60, "cd"⟩] :
        List Packet).map packet_str)).buffers 60 = none :=
  c3_fragmentation_roundtrip 2 60 "abcde"
    [⟨3, 3, 60, "e"⟩, ⟨1, 3, 60, "ab"⟩, ⟨2, 3, 60, "cd"⟩]
    (by decide) (by decide) (by decide)
    (by
      have h : split_messages_to_queue 2 60 "abcde" =
          [⟨1, 3, 60, "ab"⟩, ⟨2, 3, 60, "cd"⟩, ⟨3, 3, 60, "e"⟩] := by
        simp [split_messages_to_queue, chunksList, List.enum]
        decide
      rw [h]
      decide)

/-- C3, counterexample to the unrestricted claim: the five-character
text `"ab\ncd"` is longer than split length 2 and is encoded into the
three wire frames `1/3|60|ab`, `2/3|60|\nc`, `3/3|60|d`; but
`PACKET_REGEX` is compiled without `re.DOTALL`, so `Packet.unpack`
rejects the middle frame (its payload carries the newline) and the
decoder drops it with `ValueError` (msgpack.py lines 182-184).  Even fed
every frame in the encoder's own order, the decoder emits nothing at
all - the text is never reassembled, against the claim that any order
yields exactly the text. -/
theorem c3_newline_counterexample :
    split_messages_to_queue 2 60 "ab\ncd" =
      [⟨1, 3, 60, "ab"⟩, ⟨2, 3, 60, "\nc"⟩, ⟨3, 3, 60, "d"⟩] ∧
    packet_str ⟨2, 3, 60, "\nc"⟩ = "2/3|60|\nc" ∧
    packet_unpack "2/3|60|\nc" = none ∧
    (process_list_str emptyBuffers
      ((split_messages_to_queue 2 60 "ab\ncd").map packet_str)).outputs =
      [] := by
  have h : split_messages_to_queue 2 60 "ab\ncd" =
      [⟨1, 3, 60, "ab"⟩, ⟨2, 3, 60, "\nc"⟩, ⟨3, 3, 60, "d"⟩] := by
    simp [split_messages_to_queue, chunksList, List.enum]
    decide
  refine ⟨h, by decide, by decide, ?_⟩
  rw [h]
  decide

/-! ## C5: the `received` counter versus non-empty slots -/

theorem slotsOf_mem_congr (parts : List (List Char)) (d1 d2 : List Nat)
    (h : ∀ i, i ∈ d1 ↔ i ∈ d2) : slotsOf parts d1 = slotsOf parts d2 := by
  unfold slotsOf
  apply List.map_congr_left
  intro i _
  by_cases hm : i ∈ d1
  · rw [if_pos hm, if_pos ((h i).mp hm)]
  · rw [if_neg hm, if_neg (fun hx => hm ((h i).mpr hx))]

/-- With no duplicates the number of non-empty slots equals the number of
stored fragments. -/
theorem slotsOf_filter_length (parts : List (List Char)) (done : List Nat)
    (hnd : done.Nodup) (hsub : ∀ i ∈ done, i < parts.length)
    (hne : ∀ c ∈ parts, c ≠ []) :
    ((slotsOf parts done).filter fun s => s.length != 0).length =
      done.length := by
  unfold slotsOf
  rw [← List.countP_eq_length_filter, List.countP_map]
  have hcong : ∀ i ∈ List.range parts.length,
      (((fun s : String => s.length != 0) ∘
        fun i => if i ∈ done then (⟨parts.getD i []⟩ : String) else "") i
        = true) ↔
      ((fun i => decide (i ∈ done)) i = true) := by
    intro i hi
    have hilt : i < parts.length := List.mem_range.mp hi
    by_cases hm : i ∈ done
    · have hgd : parts.getD i [] = parts[i] := List.getD_eq_getElem _ _ hilt
      have hnonnil : parts[i] ≠ [] := hne _ (List.getElem_mem hilt)
      have hlen : (⟨parts.getD i []⟩ : String).length =
          (parts.getD i []).length := rfl
      have hpos : 0 < (parts.getD i []).length := by
        rw [hgd]
        exact List.length_pos.mpr hnonnil
      simp [Function.comp, hm, hlen, hpos.ne']
      simp [List.getElem?_eq_getElem hilt, hnonnil]
    · simp [Function.comp, if_neg hm, hm]
  rw [List.countP_congr hcong]
  have hfilter : ((List.range parts.length).filter
      fun i => decide (i ∈ done)).length = done.length := by
    have hnd2 : ((List.range parts.length).filter
        fun i => decide (i ∈ done)).Nodup :=
      (List.nodup_range _).filter _
    have hpm : ((List.range parts.length).filter
        fun i => decide (i ∈ done)).Perm done := by
      rw [List.perm_ext_iff_of_nodup hnd2 hnd]
      intro a
      simp only [List.mem_filter, List.mem_range, decide_eq_true_eq]
      constructor
      · exact fun hx => hx.2
      · exact fun hx => ⟨hsub a hx, hx⟩
    exact hpm.length_eq
  rw [← hfilter, List.countP_eq_length_filter]

/-- C5 counterexample: delivering the first fragment of a three-fragment
message twice yields `received = 2` with only one non-empty slot; and the
delivery order 3, 1, 1, 2 fills every slot without the completion check
ever firing, so nothing is emitted and the buffer is stuck at
`received = 4`. -/
theorem c5_received_counterexample :
    (process_list emptyBuffers
        [⟨1, 3, 10, "ab"⟩, ⟨1, 3, 10, "ab"⟩]).buffers 10 =
      some (2, 3, ["ab", "", ""]) ∧
    ((["ab", "", ""] : List String).filter fun s => s.length != 0).length
      = 1 ∧
    (process_list emptyBuffers
        [⟨3, 3, 10, "e"⟩, ⟨1, 3, 10, "ab"⟩, ⟨1, 3, 10, "ab"⟩,
          ⟨2, 3, 10, "cd"⟩]).outputs = [] ∧
    (process_list emptyBuffers
        [⟨3, 3, 10, "e"⟩, ⟨1, 3, 10, "ab"⟩, ⟨1, 3, 10, "ab"⟩,
          ⟨2, 3, 10, "cd"⟩]).buffers 10 =
      some (4, 3, ["ab", "cd", "e"]) ∧
    ((["ab", "cd", "e"] : List String).all fun s => s.length != 0) = true := by
  refine ⟨?_, by decide, ?_, ?_, by decide⟩ <;> rfl

/-- C5 amended: the stored `received` counter advances by one for every
fragment frame processed into the buffer - duplicates included - so it
counts processed frames, not non-empty slots; emission happens exactly
when `count = total` or the new `received` equals `total` AND every slot
is non-empty after the store; and for a duplicate-free delivery the
counter does coincide with the number of non-empty slots. -/
theorem c5_amended_received (tag : Nat) (parts : List (List Char))
    (l : List Nat) (b : Buffers) (p : Packet) (r : Nat) (buf : List String)
    (h2 : 2 ≤ parts.length) (hne : ∀ c ∈ parts, c ≠ [])
    (hnd : l.Nodup) (hsub : ∀ i ∈ l, i < parts.length)
    (hlen : l.length < parts.length)
    (hb : b p.tag = some (r, p.total, buf)) (hc : 1 ≤ p.count)
    (hlt : p.count - 1 < buf.length) :
    (process_list emptyBuffers (l.map (fragOf tag parts))).buffers tag =
      (if l = [] then none
        else some (l.length, parts.length, slotsOf parts l)) ∧
    ((slotsOf parts l).filter fun s => s.length != 0).length = l.length ∧
    ((process_packet b p).outputs = [] →
      (process_packet b p).buffers p.tag =
        some (r + 1, p.total, buf.set (p.count - 1) p.data)) ∧
    ((process_packet b p).outputs ≠ [] ↔
      ((p.total = p.count ∨ r + 1 = p.total) ∧
        ((buf.set (p.count - 1) p.data).all fun sl => sl.length != 0))) := by
  have hrun := process_run tag parts h2 hne l [] (by simpa using hnd)
    (by simpa using hsub) (by simp only [List.length_nil]; omega)
    (by simp only [List.length_nil]; omega)
  rw [bufOf_nil] at hrun
  rw [if_neg (by simp only [List.length_nil]; omega)] at hrun
  have hred : process_packet b p = fragment_update b p (r + 1) p.total buf := by
    unfold process_packet
    rw [if_neg (show ¬ p.count = 0 by omega), hb]
    show (if p.total ≠ p.total then
        fragment_update b p (0 + 1) p.total (List.replicate p.total "")
      else fragment_update b p (r + 1) p.total buf) = _
    rw [if_neg (by simp)]
  refine ⟨?_, ?_, ?_, ?_⟩
  · rw [hrun]
    have hval : bufOf tag parts (l.reverse ++ []) tag =
        (if l = [] then none
          else some (l.length, parts.length, slotsOf parts l)) := by
      unfold bufOf
      rw [if_pos rfl]
      by_cases hl : l = []
      · subst hl
        simp
      · rw [if_neg (show ¬ (l.reverse ++ [] = []) by simpa using hl),
          if_neg hl]
        have hrv : slotsOf parts (l.reverse ++ []) = slotsOf parts l :=
          slotsOf_mem_congr parts _ _ (by intro i; simp)
        rw [hrv]
        simp
    exact hval
  · exact slotsOf_filter_length parts l hnd hsub hne
  · rw [hred]
    unfold fragment_update
    rw [if_pos hlt]
    by_cases hcond : p.total = p.count ∨ r + 1 = p.total
    · rw [if_pos hcond]
      by_cases hall : ((buf.set (p.count - 1) p.data).all
          fun sl => sl.length != 0) = true
      · rw [if_pos hall]
        intro hx
        exact absurd hx (by simp)
      · rw [if_neg hall]
        intro _
        exact if_pos rfl
    · rw [if_neg hcond]
      intro _
      exact if_pos rfl
  · rw [hred]
    unfold fragment_update
    rw [if_pos hlt]
    by_cases hcond : p.total = p.count ∨ r + 1 = p.total
    · rw [if_pos hcond]
      by_cases hall : ((buf.set (p.count - 1) p.data).all
          fun sl => sl.length != 0) = true
      · rw [if_pos hall]
        constructor
        · intro _
          exact ⟨hcond, hall⟩
        · intro _
          simp
      · rw [if_neg hall]
        constructor
        · intro hx
          exact absurd rfl hx
        · rintro ⟨_, hfalse⟩
          exact absurd hfalse hall
    · rw [if_neg hcond]
      constructor
      · intro hx
        exact absurd rfl hx
      · rintro ⟨hor, _⟩
        exact absurd hor hcond

/-- Witness for the amended C5: chunks `ab`, `cd`, `e` with the
duplicate-free delivery 3, 1 and then the completing fragment 2 against
a buffer holding `received = 2`. -/
theorem c5_amended_received_witness :
    ([2, 0] : List Nat).Nodup ∧
    ((process_list emptyBuffers
        (([2, 0] : List Nat).map
          (fragOf 10 [['a', 'b'], ['c', 'd'], ['e']]))).buffers 10 =
      (if ([2, 0] : List Nat) = [] then none
        else some (([2, 0] : List Nat).length,
          ([['a', 'b'], ['c', 'd'], ['e']] : List (List Char)).length,
          slotsOf [['a', 'b'], ['c', 'd'], ['e']] [2, 0])) ∧
      ((slotsOf [['a', 'b'], ['c', 'd'], ['e']] [2, 0]).filter
          fun s => s.length != 0).length = ([2, 0] : List Nat).length ∧
      ((process_packet
          (fun t => if t = 10 then some (2, 3, (["ab", "", "e"] : List String))
            else none) ⟨2, 3, 10, "cd"⟩).outputs = [] →
        (process_packet
          (fun t => if t = 10 then some (2, 3, (["ab", "", "e"] : List String))
            else none) ⟨2, 3, 10, "cd"⟩).buffers 10 =
          some (2 + 1, 3, (["ab", "", "e"] : List String).set (2 - 1) "cd")) ∧
      ((process_packet
          (fun t => if t = 10 then some (2, 3, (["ab", "", "e"] : List String))
            else none) ⟨2, 3, 10, "cd"⟩).outputs ≠ [] ↔
        ((3 = 2 ∨ 2 + 1 = 3) ∧
          ((["ab", "", "e"] : List String).set (2 - 1) "cd").all
            fun sl => sl.length != 0))) :=
  ⟨by decide,
    c5_amended_received 10 [['a', 'b'], ['c', 'd'], ['e']] [2, 0]
      (fun t => if t = 10 then some (2, 3, (["ab", "", "e"] : List String))
        else none) ⟨2, 3, 10, "cd"⟩ 2 ["ab", "", "e"]
      (by decide) (by decide) (by decide) (by decide) (by decide)
      (by decide) (by decide) (by decide)⟩

/-! ## LoRa service (`simple_service/lora.py`) -/

/-- `LoRaServicePrority` (lora.py lines 27-30; the spelling is the
source's). -/
inductive LoRaServicePrority
  | LOW
  | HIGH
  | IMMEDIATE
deriving DecidableEq

/-- Class attribute `LoRaService.max_retries` (lora.py line 35). -/
def max_retries : Nat := 3

/-- Class attribute `LoRaService.high_priority_send_limit` (line 36). -/
def high_priority_send_limit : Nat := 5

/-- Class attribute `LoRaService.resend_interval` (line 37), seconds;
`time.monotonic()` floats are modelled as rationals. -/
def resend_interval : ℚ := 5

/-- A pending-ack entry (lora.py line 51): expiry time, attempt count,
origin priority, original record text. -/
abbrev PendingEntry : Type := ℚ × Nat × LoRaServicePrority × String

/-- The `pending_acks` dict, as an insertion-ordered association list. -/
abbrev PendingAcks : Type := List (Nat × PendingEntry)

/-- Python dict assignment `self.pending_acks[tag] = entry`. -/
def pending_insert (tag : Nat) (e : PendingEntry) (d : PendingAcks) :
    PendingAcks :=
  if d.any fun kv => kv.1 == tag then
    d.map fun kv => if kv.1 = tag then (tag, e) else kv
  else d ++ [(tag, e)]

/-- `LoRaService.__ack_received` (lora.py lines 87-93): delete the entry
for `tag` when it is being tracked. -/
def ack_received (tag : Nat) (d : PendingAcks) : PendingAcks :=
  if d.any fun kv => kv.1 == tag then d.filter fun kv => kv.1 != tag else d

/-- The slice of `LoRaService` state that `transmit` touches. -/
structure TransmitState where
  tags : TagState
  pending_acks : PendingAcks
  immediate_queue : List Packet
  high_priority_queue : List Packet
  low_priority_queue : List Packet

/-- Queue and table state after `LoRaService.__init__` (lora.py 55-85). -/
def initLoRaState : TransmitState :=
  { tags := initTagState
    pending_acks := []
    immediate_queue := []
    high_priority_queue := []
    low_priority_queue := [] }

/-- `LoRaService.transmit` (lora.py lines 210-235): encode the record
into the queue selected by `priority`; `split_messages_to_queue`
allocates the tag; afterwards the record is tracked for acknowledgement
only when `tag > ack_threshold` (line 232 uses a strict comparison). -/
def transmit (st : TransmitState) (data : String) (ack : Bool)
    (priority : LoRaServicePrority) (now : ℚ) : TransmitState :=
  let tag := (get_tag ack st.tags).1
  let tags2 := (get_tag ack st.tags).2
  let frames := split_messages_to_queue split_length tag data
  let st2 :=
    match priority with
    | LoRaServicePrority.IMMEDIATE =>
        { st with
            tags := tags2
            immediate_queue := st.immediate_queue ++ frames }
    | LoRaServicePrority.HIGH =>
        { st with
            tags := tags2
            high_priority_queue := st.high_priority_queue ++ frames }
    | LoRaServicePrority.LOW =>
        { st with
            tags := tags2
            low_priority_queue := st.low_priority_queue ++ frames }
  let entry : PendingEntry := (now + resend_interval, 0, priority, data)
  if ack_threshold < tag then
    { st2 with pending_acks := pending_insert tag entry st2.pending_acks }
  else st2

/-- C2: the first ack-range tag allocated is exactly `ack_threshold`, but
`transmit` tracks a record only when its tag is STRICTLY greater, so the
very first ack-needed record (and every wrap-around to tag 50) is
enqueued yet never inserted into the pending-ack table; the next
ack-needed record (tag 51) is inserted with
`(now + resend_interval, 0, priority, text)`, and an arriving ack
removes it.  This evaluates the code at the failing input of the claim,
whose `tag >= ACK_THRESHOLD` membership condition the code violates. -/
theorem c2_ack_threshold_boundary :
    (get_tag true initTagState).1 = ack_threshold ∧
    (transmit initLoRaState "A:engine=rpm@1@1500" true
        LoRaServicePrority.HIGH 0).pending_acks = [] ∧
    (transmit initLoRaState "A:engine=rpm@1@1500" true
        LoRaServicePrority.HIGH 0).high_priority_queue =
      [⟨0, 0, 50, "A:engine=rpm@1@1500"⟩] ∧
    (transmit (transmit initLoRaState "A:engine=rpm@1@1500" true
        LoRaServicePrority.HIGH 0) "A:engine=rpm@1@1500" true
        LoRaServicePrority.HIGH 0).pending_acks =
      [(51, (0 + resend_interval, 0, LoRaServicePrority.HIGH,
        "A:engine=rpm@1@1500"))] ∧
    ack_received 51
      [(51, (0 + resend_interval, 0, LoRaServicePrority.HIGH,
        "A:engine=rpm@1@1500"))] = [] := by
  refine ⟨rfl, rfl, ?_, ?_, ?_⟩ <;> rfl

/-! ## C1: the retransmit monitor -/

/-- Parameter list of `MsgPack.split_messages_to_queue` (msgpack.py
lines 267-269): `self, data, stream, ack_needed` - there is no `tag`
parameter. -/
def split_messages_to_queue_params : List String :=
  ["self", "data", "stream", "ack_needed"]

/-- Keyword arguments passed by `LoRaService.__resend_monitor_task` at
its call sites (lora.py lines 133-140: `..., True, tag=tag`). -/
def resend_call_keywords : List String := ["tag"]

/-- `LoRaService.__resend_monitor_task` (lora.py lines 109-147), one pass
over the pending-ack table.  An unexpired entry is kept; an entry past
`max_retries` attempts is dropped with a warning.  For an expired entry
below the retry ceiling the code calls
`split_messages_to_queue(data, queue, True, tag=tag)`; because the callee
has no `tag` parameter (see `split_messages_to_queue_params`), Python
raises `TypeError` before anything is enqueued, the exception is caught
by the `except Exception` handler of the surrounding `while` loop
(lines 146-147), and the rest of the pass is abandoned with the entry -
and every entry after it - untouched.  No frame is ever enqueued by this
task, which is why the model returns no frames. -/
def resend_monitor_pass (now : ℚ) : PendingAcks → PendingAcks
  | [] => []
  | (tag, e) :: rest =>
      if now < e.1 then (tag, e) :: resend_monitor_pass now rest
      else if max_retries ≤ e.2.1 then resend_monitor_pass now rest
      else (tag, e) :: rest

/-- C1: the resend that the claim describes never happens.  The `tag`
keyword used by the monitor is not a parameter of
`split_messages_to_queue`, the pass leaves an expired, attempts-below-
limit entry untouched (deadline and attempt count unchanged, nothing
enqueued), and in general a pass never produces an updated entry: every
surviving entry is verbatim one of the input entries. -/
theorem c1_resend_monitor_keyword_bug :
    ((resend_call_keywords.all fun k =>
      split_messages_to_queue_params.contains k) = false) ∧
    (resend_monitor_pass 1
        [(50, (0, 0, LoRaServicePrority.HIGH, "A:engine=rpm@1@1500"))] =
      [(50, (0, 0, LoRaServicePrority.HIGH, "A:engine=rpm@1@1500"))]) ∧
    (∀ (now : ℚ) (pending : PendingAcks),
      ∀ kv ∈ resend_monitor_pass now pending, kv ∈ pending) := by
  refine ⟨by decide, ?_, ?_⟩
  · show resend_monitor_pass 1 [(50, (0, 0, _, _))] = _
    unfold resend_monitor_pass
    rw [if_neg (by norm_num), if_neg (by norm_num [max_retries])]
  · intro now pending
    induction pending with
    | nil =>
        intro kv hkv
        simpa [resend_monitor_pass] using hkv
    | cons hd rest ih =>
        intro kv hkv
        unfold resend_monitor_pass at hkv
        rcases hd with ⟨tag, e⟩
        split at hkv
        · rcases List.mem_cons.mp hkv with rfl | hkv
          · exact List.mem_cons_self _ _
          · exact List.mem_cons_of_mem _ (ih kv hkv)
        · split at hkv
          · exact List.mem_cons_of_mem _ (ih kv hkv)
          · exact hkv

/-! ## C4: the priority transmit scheduler (`LoRaService.__transmit_task`) -/

/-- The queue and streak state read by one iteration of
`LoRaService.__transmit_task` (lora.py lines 149-184).  Queues hold frame
texts; `high_priority_count` is the local HIGH-streak counter, initially
0 (line 154). -/
structure SchedState where
  high_priority_count : Nat
  immediate_queue : List String
  high_priority_queue : List String
  low_priority_queue : List String
deriving DecidableEq

/-- Which queue an iteration transmitted from. -/
inductive Served
  | immediate
  | high
  | low
deriving DecidableEq

/-- The running `packet` variable plus state, with the source of the
packet recorded for the statements below. -/
structure StepAcc where
  packet : String
  st : SchedState
  src : Option Served
deriving DecidableEq

/-- Lines 157-160: `packet = ""`, then take from IMMEDIATE if non-empty. -/
def stage_immediate (s : SchedState) : StepAcc :=
  if 0 < s.immediate_queue.length then
    { packet := s.immediate_queue.headD ""
      st := { s with immediate_queue := s.immediate_queue.tail }
      src := some Served.immediate }
  else { packet := "", st := s, src := none }

/-- Lines 161-169: take from HIGH when no packet yet, the streak is below
`high_priority_send_limit` and the queue is non-empty, incrementing the
streak; otherwise (the `else` on line 168) reset the streak to 0. -/
def stage_high (a : StepAcc) : StepAcc :=
  if a.packet = "" ∧
      a.st.high_priority_count < high_priority_send_limit ∧
      0 < a.st.high_priority_queue.length then
    { packet := a.st.high_priority_queue.headD ""
      st := { a.st with
                high_priority_queue := a.st.high_priority_queue.tail
                high_priority_count := a.st.high_priority_count + 1 }
      src := some Served.high }
  else { a with st := { a.st with high_priority_count := 0 } }

/-- Lines 171-173: take from LOW when still no packet, resetting the
streak. -/
def stage_low (a : StepAcc) : StepAcc :=
  if a.packet = "" ∧ 0 < a.st.low_priority_queue.length then
    { packet := a.st.low_priority_queue.headD ""
      st := { a.st with
                low_priority_queue := a.st.low_priority_queue.tail
                high_priority_count := 0 }
      src := some Served.low }
  else a

/-- One iteration of the transmit loop; `packet = ""` at the end is the
idle tick of lines 175-177, otherwise the packet is sent (line 181). -/
def transmit_step (s : SchedState) : StepAcc :=
  stage_low (stage_high (stage_immediate s))

/-- The state after `n` iterations with no concurrent enqueues. -/
def transmit_run (s : SchedState) : Nat → SchedState
  | 0 => s
  | n + 1 => (transmit_step (transmit_run s n)).st

/-- The queue served by iteration `i` of the closed run. -/
def served_at (s : SchedState) (i : Nat) : Option Served :=
  (transmit_step (transmit_run s i)).src

theorem transmit_run_succ_head (s : SchedState) (n : Nat) :
    transmit_run s (n + 1) = transmit_run (transmit_step s).st n := by
  induction n with
  | zero => rfl
  | succ n ih =>
      show (transmit_step (transmit_run s (n + 1))).st = _
      rw [ih]
      rfl

theorem served_at_succ (s : SchedState) (n : Nat) :
    served_at s (n + 1) = served_at (transmit_step s).st n := by
  unfold served_at
  rw [transmit_run_succ_head]

theorem stage_immediate_pos (s : SchedState) (h : s.immediate_queue ≠ []) :
    stage_immediate s =
      { packet := s.immediate_queue.headD ""
        st := { s with immediate_queue := s.immediate_queue.tail }
        src := some Served.immediate } := by
  unfold stage_immediate
  rw [if_pos (List.length_pos.mpr h)]

theorem stage_immediate_nil (s : SchedState) (h : s.immediate_queue = []) :
    stage_immediate s = { packet := "", st := s, src := none } := by
  unfold stage_immediate
  rw [if_neg (by rw [h]; simp)]

theorem stage_high_skip (a : StepAcc) (h : a.packet ≠ "") :
    stage_high a = { a with st := { a.st with high_priority_count := 0 } } := by
  unfold stage_high
  rw [if_neg (fun hcon => h hcon.1)]

theorem stage_high_take (a : StepAcc) (h1 : a.packet = "")
    (h2 : a.st.high_priority_count < high_priority_send_limit)
    (h3 : a.st.high_priority_queue ≠ []) :
    stage_high a =
      { packet := a.st.high_priority_queue.headD ""
        st := { a.st with
                  high_priority_queue := a.st.high_priority_queue.tail
                  high_priority_count := a.st.high_priority_count + 1 }
        src := some Served.high } := by
  unfold stage_high
  rw [if_pos ⟨h1, h2, List.length_pos.mpr h3⟩]

theorem stage_high_reset (a : StepAcc)
    (h : high_priority_send_limit ≤ a.st.high_priority_count ∨
      a.st.high_priority_queue = []) :
    stage_high a = { a with st := { a.st with high_priority_count := 0 } } := by
  unfold stage_high
  rw [if_neg (by
    rintro ⟨-, hlt, hlen⟩
    rcases h with h | h
    · omega
    · rw [h] at hlen
      simp at hlen)]

theorem stage_low_skip (a : StepAcc) (h : a.packet ≠ "") :
    stage_low a = a := by
  unfold stage_low
  rw [if_neg (fun hcon => h hcon.1)]

theorem stage_low_take (a : StepAcc) (h1 : a.packet = "")
    (h2 : a.st.low_priority_queue ≠ []) :
    stage_low a =
      { packet := a.st.low_priority_queue.headD ""
        st := { a.st with
                  low_priority_queue := a.st.low_priority_queue.tail
                  high_priority_count := 0 }
        src := some Served.low } := by
  unfold stage_low
  rw [if_pos ⟨h1, List.length_pos.mpr h2⟩]

/-- An iteration with a (non-empty-string) frame waiting in IMMEDIATE
serves it, before HIGH and LOW, and resets the HIGH streak. -/
theorem step_immediate_eval (s : SchedState)
    (h0 : s.immediate_queue ≠ [])
    (h1 : s.immediate_queue.headD "" ≠ "") :
    transmit_step s =
      { packet := s.immediate_queue.headD ""
        st := { s with
                  immediate_queue := s.immediate_queue.tail
                  high_priority_count := 0 }
        src := some Served.immediate } := by
  unfold transmit_step
  rw [stage_immediate_pos s h0, stage_high_skip _ h1, stage_low_skip _ h1]

/-- An iteration with IMMEDIATE empty, the streak below the limit and a
frame waiting in HIGH serves HIGH and increments the streak. -/
theorem step_high_eval (s : SchedState)
    (h0 : s.immediate_queue = [])
    (h1 : s.high_priority_count < high_priority_send_limit)
    (h2 : s.high_priority_queue ≠ [])
    (h3 : s.high_priority_queue.headD "" ≠ "") :
    transmit_step s =
      { packet := s.high_priority_queue.headD ""
        st := { s with
                  high_priority_queue := s.high_priority_queue.tail
                  high_priority_count := s.high_priority_count + 1 }
        src := some Served.high } := by
  unfold transmit_step
  rw [stage_immediate_nil s h0, stage_high_take _ rfl h1 h2,
    stage_low_skip _ h3]

/-- An iteration with IMMEDIATE empty and HIGH unavailable (streak at the
limit or queue empty) serves LOW and resets the streak. -/
theorem step_low_eval (s : SchedState)
    (h0 : s.immediate_queue = [])
    (h1 : high_priority_send_limit ≤ s.high_priority_count ∨
      s.high_priority_queue = [])
    (h2 : s.low_priority_queue ≠ [])
    (h3 : s.low_priority_queue.headD "" ≠ "") :
    transmit_step s =
      { packet := s.low_priority_queue.headD ""
        st := { s with
                  low_priority_queue := s.low_priority_queue.tail
                  high_priority_count := 0 }
        src := some Served.low } := by
  unfold transmit_step
  rw [stage_immediate_nil s h0, stage_high_reset _ h1, stage_low_take _ rfl h2]

/-- The HIGH streak never exceeds the limit after any iteration. -/
theorem transmit_step_hc_le (s : SchedState) :
    (transmit_step s).st.high_priority_count ≤
      high_priority_send_limit := by
  unfold transmit_step stage_immediate stage_high stage_low
  split_ifs <;> simp_all <;> omega

theorem headD_mem_of_ne_nil {α : Type} (l : List α) (d : α) (h : l ≠ []) :
    l.headD d ∈ l := by
  cases l with
  | nil => exact absurd rfl h
  | cons a t => simp

/-- With IMMEDIATE staying empty and a frame waiting in LOW, the loop
serves LOW after at most `high_priority_send_limit - streak` HIGH
serves. -/
theorem fairness_aux :
    ∀ (fuel : Nat) (s : SchedState),
      s.immediate_queue = [] →
      s.low_priority_queue ≠ [] →
      (∀ x ∈ s.high_priority_queue, x ≠ "") →
      (∀ x ∈ s.low_priority_queue, x ≠ "") →
      high_priority_send_limit - s.high_priority_count ≤ fuel →
      ∃ k, k ≤ high_priority_send_limit - s.high_priority_count ∧
        (∀ i < k, served_at s i = some Served.high) ∧
        served_at s k = some Served.low := by
  intro fuel
  induction fuel with
  | zero =>
      intro s h0 h1 hh hl hf
      have hlow_ne : s.low_priority_queue.headD "" ≠ "" :=
        hl _ (headD_mem_of_ne_nil _ _ h1)
      refine ⟨0, Nat.zero_le _, fun i hi => absurd hi (Nat.not_lt_zero i), ?_⟩
      show (transmit_step s).src = some Served.low
      rw [step_low_eval s h0 (Or.inl (by omega)) h1 hlow_ne]
  | succ fuel ih =>
      intro s h0 h1 hh hl hf
      have hlow_ne : s.low_priority_queue.headD "" ≠ "" :=
        hl _ (headD_mem_of_ne_nil _ _ h1)
      by_cases hc : s.high_priority_count < high_priority_send_limit ∧
        s.high_priority_queue ≠ []
      · obtain ⟨hc1, hc2⟩ := hc
        have hhne : s.high_priority_queue.headD "" ≠ "" :=
          hh _ (headD_mem_of_ne_nil _ _ hc2)
        have hstep := step_high_eval s h0 hc1 hc2 hhne
        obtain ⟨k, hk, hsrv, hlast⟩ := ih
          { s with
              high_priority_queue := s.high_priority_queue.tail
              high_priority_count := s.high_priority_count + 1 }
          h0 h1 (fun x hx => hh x (List.tail_subset _ hx)) hl
          (by show high_priority_send_limit -
                (s.high_priority_count + 1) ≤ fuel
              omega)
        have hk2 : k ≤ high_priority_send_limit -
            (s.high_priority_count + 1) := hk
        refine ⟨k + 1, by omega, ?_, ?_⟩
        · intro i hi
          cases i with
          | zero =>
              show (transmit_step s).src = some Served.high
              rw [hstep]
          | succ j =>
              rw [served_at_succ, hstep]
              exact hsrv j (by omega)
        · rw [served_at_succ, hstep]
          exact hlast
      · have hor : high_priority_send_limit ≤ s.high_priority_count ∨
            s.high_priority_queue = [] := by
          rcases not_and_or.mp hc with h | h
          · exact Or.inl (by omega)
          · exact Or.inr (not_not.mp h)
        refine ⟨0, Nat.zero_le _, fun i hi => absurd hi (Nat.not_lt_zero i), ?_⟩
        show (transmit_step s).src = some Served.low
        rw [step_low_eval s h0 hor h1 hlow_ne]

/-- C4: on every iteration a frame waiting in IMMEDIATE is served first
(tails of the other queues untouched); the HIGH streak counter never
exceeds `high_priority_send_limit` after an iteration; and from any state
with IMMEDIATE empty and LOW non-empty, at most `high_priority_send_limit`
consecutive HIGH frames are transmitted before a LOW frame is
transmitted. -/
theorem c4_priority_scheduler :
    (∀ s : SchedState, s.immediate_queue ≠ [] →
      (∀ x ∈ s.immediate_queue, x ≠ "") →
      (transmit_step s).src = some Served.immediate ∧
      (transmit_step s).packet = s.immediate_queue.headD "" ∧
      (transmit_step s).st.immediate_queue = s.immediate_queue.tail ∧
      (transmit_step s).st.high_priority_queue = s.high_priority_queue ∧
      (transmit_step s).st.low_priority_queue = s.low_priority_queue) ∧
    (∀ s : SchedState,
      (transmit_step s).st.high_priority_count ≤
        high_priority_send_limit) ∧
    (∀ s : SchedState,
      s.immediate_queue = [] →
      s.low_priority_queue ≠ [] →
      (∀ x ∈ s.high_priority_queue, x ≠ "") →
      (∀ x ∈ s.low_priority_queue, x ≠ "") →
      ∃ k, k ≤ high_priority_send_limit ∧
        (∀ i < k, served_at s i = some Served.high) ∧
        served_at s k = some Served.low) := by
  refine ⟨?_, transmit_step_hc_le, ?_⟩
  · intro s h0 hne
    have hhead : s.immediate_queue.headD "" ≠ "" :=
      hne _ (headD_mem_of_ne_nil _ _ h0)
    rw [step_immediate_eval s h0 hhead]
    exact ⟨rfl, rfl, rfl, rfl, rfl⟩
  · intro s h0 h1 hh hl
    obtain ⟨k, hk, hsrv, hlast⟩ := fairness_aux high_priority_send_limit s
      h0 h1 hh hl (by omega)
    exact ⟨k, by omega, hsrv, hlast⟩

/-- Witness for C4: an iteration with an ack in IMMEDIATE serves it
first; the streak bound after a step from streak 5; and from streak 3
with three HIGH frames and one LOW frame queued, LOW is served within
the limit. -/
theorem c4_priority_scheduler_witness :
    (((transmit_step ⟨0, ["ACK:50"], ["h1"], ["l1"]⟩).src =
        some Served.immediate ∧
      (transmit_step ⟨0, ["ACK:50"], ["h1"], ["l1"]⟩).packet =
        (["ACK:50"] : List String).headD "" ∧
      (transmit_step ⟨0, ["ACK:50"], ["h1"], ["l1"]⟩).st.immediate_queue =
        (["ACK:50"] : List String).tail ∧
      (transmit_step ⟨0, ["ACK:50"], ["h1"], ["l1"]⟩).st.high_priority_queue
        = ["h1"] ∧
      (transmit_step ⟨0, ["ACK:50"], ["h1"], ["l1"]⟩).st.low_priority_queue
        = ["l1"]) ∧
    (transmit_step ⟨5, [], ["h1"], []⟩).st.high_priority_count ≤
      high_priority_send_limit ∧
    ∃ k, k ≤ high_priority_send_limit ∧
      (∀ i < k,
        served_at ⟨3, [], ["h1", "h2", "h3"], ["l1"]⟩ i =
          some Served.high) ∧
      served_at ⟨3, [], ["h1", "h2", "h3"], ["l1"]⟩ k =
        some Served.low) :=
  ⟨c4_priority_scheduler.1 ⟨0, ["ACK:50"], ["h1"], ["l1"]⟩
      (by decide) (by decide),
    c4_priority_scheduler.2.1 ⟨5, [], ["h1"], []⟩,
    c4_priority_scheduler.2.2 ⟨3, [], ["h1", "h2", "h3"], ["l1"]⟩
      (by decide) (by decide) (by decide) (by decide)⟩

/-! ## Radio driver (`RYLR896/core.py`) -/

/-- The error kinds raised locally by the driver setters
(`errors.ATCommandError` with a message, `errors.TXDataOverflowError`). -/
inductive ATError
  | commandError (message : String)
  | txDataOverflow
deriving DecidableEq

/-- `RLYR896.set_address` (core.py lines 198-207).  Returns the AT lines
written to the serial port; a validation failure writes nothing.  Note
the code validates `0 <= address < 65535`, strict at the top, although
the module docstring (lines 21 and 26) documents the range 0-65535
inclusive. -/
def set_address (current_address : ℤ) (address : ℤ) (force : Bool) :
    Except ATError (List String) :=
  if ¬ (0 ≤ address ∧ address < 65535) then
    Except.error (ATError.commandError "Address Out of Range")
  else if address = current_address ∧ ¬ force then Except.ok []
  else Except.ok ["AT+ADDRESS=" ++ toString address]

/-- `RLYR896.set_network_id` (core.py lines 216-225). -/
def set_network_id (current_id : ℤ) (network_id : ℤ) (force : Bool) :
    Except ATError (List String) :=
  if ¬ (0 ≤ network_id ∧ network_id ≤ 16) then
    Except.error (ATError.commandError "Network ID must be between 0 and 16")
  else if current_id = network_id ∧ ¬ force then Except.ok []
  else Except.ok ["AT+NETWORKID=" ++ toString network_id]

/-- `RLYR896.set_parameters` (core.py lines 248-262). -/
def set_parameters (spreading_factor bandwidth coding_rate preamble : ℤ) :
    Except ATError (List String) :=
  if ¬ (5 ≤ spreading_factor ∧ spreading_factor ≤ 15 ∧
      0 ≤ bandwidth ∧ bandwidth ≤ 9 ∧
      1 ≤ coding_rate ∧ coding_rate ≤ 10 ∧
      0 ≤ preamble ∧ preamble ≤ 15) then
    Except.error (ATError.commandError "Parameters arent quite right")
  else
    Except.ok ["AT+PARAMETER=" ++ toString spreading_factor ++ "," ++
      toString bandwidth ++ "," ++ toString coding_rate ++ "," ++
      toString preamble]

/-- `RLYR896.set_power` (core.py lines 296-300).  The code validates
`0 <= power < 20`, strict at the top, although its own error message
says "Power must be between 0 and 20". -/
def set_power (power : ℤ) : Except ATError (List String) :=
  if ¬ (0 ≤ power ∧ power < 20) then
    Except.error (ATError.commandError "Power must be between 0 and 20")
  else Except.ok ["AT+CRFOP=" ++ toString power]

/-- Python `str.isascii`: every code point below 128. -/
def isAsciiString (s : String) : Bool :=
  s.data.all fun c => c.toNat < 128

/-- `RLYR896.send` (core.py lines 184-196): an address outside
`[0, 65535]` is silently replaced by 0 (the broadcast address per the
module docstring, line 26); non-ASCII data and payloads over 240 bytes
raise; otherwise one `AT+SEND` line is written. -/
def rlyr_send (address : ℤ) (data : String) :
    Except ATError (List String) :=
  let address2 := if ¬ (0 ≤ address ∧ address ≤ 65535) then 0 else address
  if ¬ isAsciiString data then
    Except.error (ATError.commandError "data must be ASCII")
  else if 240 < data.length then Except.error ATError.txDataOverflow
  else
    Except.ok ["AT+SEND=" ++ toString address2 ++ "," ++
      toString data.length ++ "," ++ data]

/-- C8: evaluation of the setters at the claim boundary.  `set_address`
rejects 65535 and `set_power` rejects 20 (both raise without touching the
wire), although the claim - matching the module docstring for the
address range and the code's own error message for power - says they are
accepted; every strictly smaller in-range value is accepted, the
out-of-range side always raises without writing, and `set_network_id`
and `set_parameters` accept exactly the claimed closed ranges. -/
theorem c8_setter_validation :
    set_address 10 65535 true =
      Except.error (ATError.commandError "Address Out of Range") ∧
    set_power 20 =
      Except.error (ATError.commandError "Power must be between 0 and 20") ∧
    (∀ a : ℤ, 0 ≤ a → a < 65535 →
      set_address 10 a true = Except.ok ["AT+ADDRESS=" ++ toString a]) ∧
    (∀ a : ℤ, ¬ (0 ≤ a ∧ a < 65535) → ∀ c : ℤ, ∀ f : Bool,
      set_address c a f =
        Except.error (ATError.commandError "Address Out of Range")) ∧
    (∀ p : ℤ, 0 ≤ p → p < 20 →
      set_power p = Except.ok ["AT+CRFOP=" ++ toString p]) ∧
    (∀ n : ℤ, 0 ≤ n → n ≤ 16 → ∀ c : ℤ,
      set_network_id c n true =
        Except.ok ["AT+NETWORKID=" ++ toString n]) ∧
    (∀ n : ℤ, ¬ (0 ≤ n ∧ n ≤ 16) → ∀ c : ℤ, ∀ f : Bool,
      set_network_id c n f = Except.error
        (ATError.commandError "Network ID must be between 0 and 16")) ∧
    (∀ sf bw cr pre : ℤ, 5 ≤ sf → sf ≤ 15 → 0 ≤ bw → bw ≤ 9 →
      1 ≤ cr → cr ≤ 10 → 0 ≤ pre → pre ≤ 15 →
      set_parameters sf bw cr pre =
        Except.ok ["AT+PARAMETER=" ++ toString sf ++ "," ++ toString bw ++
          "," ++ toString cr ++ "," ++ toString pre]) := by
  refine ⟨rfl, rfl, ?_, ?_, ?_, ?_, ?_, ?_⟩
  · intro a h1 h2
    unfold set_address
    rw [if_neg (by push_neg; exact ⟨h1, h2⟩)]
    rw [if_neg (by rintro ⟨-, hf⟩; exact hf rfl)]
  · intro a ha c f
    unfold set_address
    rw [if_pos ha]
  · intro p h1 h2
    unfold set_power
    rw [if_neg (by push_neg; exact ⟨h1, h2⟩)]
  · intro n h1 h2 c
    unfold set_network_id
    rw [if_neg (by push_neg; exact ⟨h1, h2⟩)]
    rw [if_neg (by rintro ⟨-, hf⟩; exact hf rfl)]
  · intro n hn c f
    unfold set_network_id
    rw [if_pos hn]
  · intro sf bw cr pre h1 h2 h3 h4 h5 h6 h7 h8
    unfold set_parameters
    rw [if_neg (by push_neg; exact ⟨h1, h2, h3, h4, h5, h6, h7, h8⟩)]

/-- Witness for C8 at in-range and out-of-range points of each setter. -/
theorem c8_setter_validation_witness :
    set_address 10 65534 true = Except.ok ["AT+ADDRESS=" ++ toString (65534 : ℤ)] ∧
    set_address 10 (-1) false =
      Except.error (ATError.commandError "Address Out of Range") ∧
    set_power 19 = Except.ok ["AT+CRFOP=" ++ toString (19 : ℤ)] ∧
    set_network_id 3 16 true =
      Except.ok ["AT+NETWORKID=" ++ toString (16 : ℤ)] ∧
    set_network_id 3 17 false = Except.error
      (ATError.commandError "Network ID must be between 0 and 16") ∧
    set_parameters 10 9 4 6 =
      Except.ok ["AT+PARAMETER=" ++ toString (10 : ℤ) ++ "," ++
        toString (9 : ℤ) ++ "," ++ toString (4 : ℤ) ++ "," ++
        toString (6 : ℤ)] :=
  ⟨c8_setter_validation.2.2.1 65534 (by decide) (by decide),
    c8_setter_validation.2.2.2.1 (-1) (by decide) 10 false,
    c8_setter_validation.2.2.2.2.1 19 (by decide) (by decide),
    c8_setter_validation.2.2.2.2.2.1 16 (by decide) (by decide) 3,
    c8_setter_validation.2.2.2.2.2.2.1 17 (by decide) 3 false,
    c8_setter_validation.2.2.2.2.2.2.2 10 9 4 6 (by decide) (by decide)
      (by decide) (by decide) (by decide) (by decide) (by decide)
      (by decide)⟩

/-- C10: sending ASCII data of length at most 240 to an address outside
`[0, 65535]` raises no validation error; the address is silently replaced
by 0 and the wire carries `AT+SEND=0,<len>,<data>`. -/
theorem c10_send_broadcast (a : ℤ) (data : String)
    (ha : ¬ (0 ≤ a ∧ a ≤ 65535))
    (hascii : isAsciiString data = true)
    (hlen : data.length ≤ 240) :
    rlyr_send a data =
      Except.ok ["AT+SEND=" ++ toString (0 : ℤ) ++ "," ++
        toString data.length ++ "," ++ data] := by
  unfold rlyr_send
  rw [if_pos ha]
  rw [if_neg (by rw [hascii]; intro hcon; exact hcon rfl)]
  rw [if_neg (by omega)]

/-- Witness for C10: address 70000 with the payload `hi`. -/
theorem c10_send_broadcast_witness :
    ¬ ((0 : ℤ) ≤ 70000 ∧ (70000 : ℤ) ≤ 65535) ∧
    rlyr_send 70000 "hi" =
      Except.ok ["AT+SEND=" ++ toString (0 : ℤ) ++ "," ++
        toString ("hi".length) ++ "," ++ "hi"] :=
  ⟨by decide, c10_send_broadcast 70000 "hi" (by decide) (by decide)
    (by decide)⟩

/-! ## Alert rule engine (`alerts/core.py`) -/

/-- `AlertConditions` (messages/alerts.py lines 6-12). -/
inductive AlertConditions
  | GT
  | GTE
  | LT
  | LTE
  | EQ
  | REMOVE
deriving DecidableEq

/-- `MonitorConditions = tuple[AlertConditions, bool, float]` -
(condition, hold, threshold), the order `add_rule` stores. -/
abbrev MonitorConditions : Type := AlertConditions × Bool × ℚ

/-- `MonitorAlerts.check` (alerts/core.py lines 84-111) for one monitor:
`rules` and `alert_conditions` are the two dicts; an emitted
`AlertMessage` is recorded as `(listen_to, triggered, value)`, where
`triggered` is read back from the condition dict after the mutation, as
`__send_alert_update` (lines 73-81) does.  The five successive `if
condition is X` statements each overwrite `alert`; since the
constructors are mutually exclusive this is the match below, with
`alert = False` surviving for `REMOVE`. -/
def check (rules : String → Option MonitorConditions)
    (conds : String → Option Bool) (listen_to : String) (value : ℚ) :
    (String → Option Bool) × List (String × Bool × ℚ) :=
  match rules listen_to with
  | none => (conds, [])
  | some (condition, hold, threshold) =>
      let alert : Bool :=
        match condition with
        | AlertConditions.GT => decide (value > threshold)
        | AlertConditions.GTE => decide (value ≥ threshold)
        | AlertConditions.LT => decide (value < threshold)
        | AlertConditions.LTE => decide (value ≤ threshold)
        | AlertConditions.EQ => decide (value = threshold)
        | AlertConditions.REMOVE => false
      if (conds listen_to).getD false then
        if alert then (conds, [])
        else if hold then (conds, [])
        else
          let conds2 := fun k => if k = listen_to then some false else conds k
          (conds2, [(listen_to, (conds2 listen_to).getD false, value)])
      else if alert then
        let conds2 := fun k => if k = listen_to then some true else conds k
        (conds2, [(listen_to, (conds2 listen_to).getD false, value)])
      else (conds, [])

/-- Feeding a sample sequence through `check`, collecting emissions. -/
def check_run (rules : String → Option MonitorConditions)
    (conds : String → Option Bool) (listen_to : String) (values : List ℚ) :
    (String → Option Bool) × List (String × Bool × ℚ) :=
  values.foldl
    (fun acc v =>
      ((check rules acc.1 listen_to v).1,
        acc.2 ++ (check rules acc.1 listen_to v).2))
    (conds, [])

/-- C9 counterexample: for the rule (GT, threshold 10, hold=false) with
no prior state, the samples 9, 11, 12, 9, 11 produce exactly three
emissions - nothing is emitted for the first sample (firing=false,
alert=false), so the claimed pattern with an emission
`triggered=false` at position 1 (four emissions) does not match. -/
theorem c9_edge_counterexample :
    (check_run
        (fun k => if k = "rpm" then
          some (AlertConditions.GT, false, 10) else none)
        (fun _ => none) "rpm" [9, 11, 12, 9, 11]).2 =
      [("rpm", true, 11), ("rpm", false, 9), ("rpm", true, 11)] ∧
    [("rpm", true, 11), ("rpm", false, 9), ("rpm", true, 11)] ≠
      ([("rpm", false, 9), ("rpm", true, 11), ("rpm", false, 9),
        ("rpm", true, 11)] : List (String × Bool × ℚ)) := by
  constructor
  · decide
  · decide

/-- C9 amended: for every threshold `T`, the rule (GT, T, hold=false)
with no prior state maps the samples T-1, T+1, T+2, T-1, T+1 to the
emission pattern absent, true, absent, false, true - one record per
non-absent position carrying the sample's value. -/
theorem c9_gt_edge_pattern (T : ℚ) :
    (check_run
        (fun k => if k = "rpm" then
          some (AlertConditions.GT, false, T) else none)
        (fun _ => none) "rpm" [T - 1, T + 1, T + 2, T - 1, T + 1]).2 =
      [("rpm", true, T + 1), ("rpm", false, T - 1), ("rpm", true, T + 1)] := by
  have p1 : ¬ (T < T - 1) := by linarith
  have p2 : T < T + 1 := by linarith
  have p3 : T < T + 2 := by linarith
  simp [check_run, check, p1, p2, p3]

/-! ## Record classes and registry (`messages/`) -/

/-- `AlertMessage` (messages/alerts.py lines 16-53): monitor name,
listened key, triggered flag and numeric value. -/
structure AlertMessage where
  name : String
  listen_to : String
  triggered : Bool
  val : ℚ
deriving DecidableEq

/-- `OBD2Priority` (messages/obd2.py lines 8-12). -/
inductive OBD2Priority
  | IMMEDIATE
  | HIGH
  | LOW
  | REMOVE
deriving DecidableEq

/-- The `.value` of each `OBD2Priority` member. -/
def OBD2Priority.toVal : OBD2Priority → Nat
  | OBD2Priority.IMMEDIATE => 0
  | OBD2Priority.HIGH => 1
  | OBD2Priority.LOW => 2
  | OBD2Priority.REMOVE => 3

/-- `OBD2Priority(x)`: the member with value `x`, `ValueError`
otherwise. -/
def OBD2Priority.ofVal : ℤ → Option OBD2Priority
  | 0 => some OBD2Priority.IMMEDIATE
  | 1 => some OBD2Priority.HIGH
  | 2 => some OBD2Priority.LOW
  | 3 => some OBD2Priority.REMOVE
  | _ => none

/-- `OBD2ConfigMonitor` (messages/obd2.py lines 47-87): listened command,
send-to-pit flag and priority. -/
structure OBD2ConfigMonitor where
  listen_to : String
  send_to_pit : Bool
  priority : OBD2Priority
deriving DecidableEq

/-- Modelled from the spec: the OBD command tables `COMMAND_MAP` and
`SHORTENED_MAP` (module `qsgrc.monitor.obd2.command_mapping`, which is
absent from src/).  Spec section 6 gives only the COBD1 VALUE shape
`shortcmd.priority.toPit01`, so the model carries one
full-name/short-name pair, with the two tables inverse to each other as
every use in `OBD2ConfigMonitor` requires. -/
def COMMAND_MAP : List (String × String) := [("rpm", "r")]

/-- Modelled from the spec: the inverse table, short name to full name. -/
def SHORTENED_MAP : List (String × String) := [("r", "rpm")]

def command_map_get (k : String) : Option String :=
  (COMMAND_MAP.find? fun kv => kv.1 == k).map fun kv => kv.2

def shortened_map_get (k : String) : Option String :=
  (SHORTENED_MAP.find? fun kv => kv.1 == k).map fun kv => kv.2

/-- Rendering of the numeric value inside an alert record text.  The code
interpolates the Python value with `str()`; every record the claims
evaluate carries an integral value, which Python prints as its digits -
the `den = 1` branch.  (A non-integral float would print with a decimal
point; no claim evaluates one, and the other branch only marks such
values distinctly.) -/
def renderVal (q : ℚ) : String :=
  if q.den = 1 then toString q.num
  else toString q.num ++ "/" ++ toString q.den

/-- `str()` of an `AlertMessage`: `__init__` builds
`value = f"{listen_to}@{int(triggered)}@{val}"` and `BaseMessage.__str__`
renders `A:{name}={value}`. -/
def alert_str (m : AlertMessage) : String :=
  "A:" ++ m.name ++ "=" ++ m.listen_to ++ "@" ++
    (if m.triggered then "1" else "0") ++ "@" ++ renderVal m.val

/-- `str()` of an `OBD2ConfigMonitor`: `value =
f"{shortened_cmd}.{priority.value}.{int(send_to_pit)}"` under leader
`COBD1` and fixed name `MONCONF`; an unknown command raises
(`ValueError`), hence `Option`. -/
def obd2cfg_str (m : OBD2ConfigMonitor) : Option String :=
  (command_map_get m.listen_to).map fun short =>
    "COBD1:MONCONF=" ++ short ++ "." ++ toString m.priority.toVal ++ "." ++
      (if m.send_to_pit then "1" else "0")

/-- `BaseMessage.match_re.fullmatch` (messages/core.py line 20):
`([A-Z0-9]+):([a-zA-Z0-9]+)=(.*)` - maximal leader and name runs
followed by `:` and `=`, the rest of the record text as VALUE. -/
def base_match (s : String) : Option (String × String × String) :=
  let l1 := s.data.takeWhile fun c => c.isUpper ∨ c.isDigit
  match s.data.dropWhile fun c => c.isUpper ∨ c.isDigit with
  | ':' :: r2 =>
      let nm := r2.takeWhile Char.isAlphanum
      match r2.dropWhile Char.isAlphanum with
      | '=' :: v =>
          if l1 ≠ [] ∧ nm ≠ [] then some (⟨l1⟩, ⟨nm⟩, ⟨v⟩) else none
      | _ => none
  | _ => none

/-- Python `value.split(sep)` for a one-character separator. -/
def splitChar (sep : Char) : List Char → List (List Char)
  | [] => [[]]
  | c :: rest =>
      let r := splitChar sep rest
      if c = sep then [] :: r
      else
        match r with
        | [] => [[c]]
        | g :: gs => (c :: g) :: gs

/-- Python `int(s)` on the digit strings the records use (an optional
minus sign and digits; the wider Python forms never occur in record
texts). -/
def pyInt (s : String) : Option ℤ :=
  match s.data with
  | [] => none
  | '-' :: cs =>
      if cs ≠ [] ∧ cs.all Char.isDigit then
        some (-(natOfDigits cs : ℤ))
      else none
  | cs =>
      if cs.all Char.isDigit then some ((natOfDigits cs : ℤ)) else none

/-- Python `float(s)` on the decimal literals the records use: optional
minus sign, digits, optional fraction. -/
def pyFloat (s : String) : Option ℚ :=
  let unsigned : List Char → Option ℚ := fun cs =>
    let ip := cs.takeWhile Char.isDigit
    match cs.dropWhile Char.isDigit with
    | [] => if ip ≠ [] then some ((natOfDigits ip : ℚ)) else none
    | '.' :: fr =>
        if ip ≠ [] ∧ fr ≠ [] ∧ fr.all Char.isDigit then
          some ((natOfDigits ip : ℚ) +
            (natOfDigits fr : ℚ) / ((10 : ℚ) ^ fr.length))
        else none
    | _ => none
  match s.data with
  | '-' :: cs => (unsigned cs).map Neg.neg
  | cs => unsigned cs

/-- `AlertMessage.unpack` (messages/alerts.py lines 32-53): match the
record regex, require leader `A`, split VALUE on `@` into exactly three
parts, `bool(int(triggered))`, `float(val)`. -/
def alert_unpack (data : String) : Option AlertMessage :=
  match base_match data with
  | none => none
  | some (leader, nm, value) =>
      if leader ≠ "A" then none
      else
        match splitChar '@' value.data with
        | [l, t, v] =>
            match pyInt ⟨t⟩ with
            | none => none
            | some ti =>
                match pyFloat ⟨v⟩ with
                | none => none
                | some val => some ⟨nm, ⟨l⟩, ti != 0, val⟩
        | _ => none

/-- `OBD2ConfigMonitor.unpack` (messages/obd2.py lines 69-87): match the
regex, require leader `COBD1` and name `MONCONF`, split VALUE on `.` into
exactly three parts, then call the constructor as the source does:
`cls(SHORTENED_MAP[parts[0]], bool(int(parts[1])), OBD2Priority(int(parts[2])))`
- so `parts[1]`, the priority digit of the encoding, arrives in the
constructor's `send_to_pit` slot and `parts[2]`, the to-pit digit,
arrives in its `priority` slot.  The constructor re-derives the value
through `COMMAND_MAP` and raises on an unknown command. -/
def obd2cfg_unpack (data : String) : Option OBD2ConfigMonitor :=
  match base_match data with
  | none => none
  | some (leader, nm, value) =>
      if leader ≠ "COBD1" then none
      else if nm ≠ "MONCONF" then none
      else
        match splitChar '.' value.data with
        | [p0, p1, p2] =>
            match shortened_map_get ⟨p0⟩ with
            | none => none
            | some long =>
                match pyInt ⟨p1⟩ with
                | none => none
                | some i1 =>
                    match pyInt ⟨p2⟩ with
                    | none => none
                    | some i2 =>
                        match OBD2Priority.ofVal i2 with
                        | none => none
                        | some pr =>
                            match command_map_get long with
                            | none => none
                            | some _ => some ⟨long, i1 != 0, pr⟩
        | _ => none

/-- A record produced by the registry, restricted to the two classes the
claims exercise. -/
inductive ParsedRecord
  | alert (m : AlertMessage)
  | obd2cfg (m : OBD2ConfigMonitor)
deriving DecidableEq

/-- The registry `unpack` (messages/__init__.py lines 10-33): extract
LEADER via `^([A-Z0-9]+):` and dispatch to the class parser.  The
embedding carries the two registry entries the claims evaluate (`A` and
`COBD1`); the other registered leaders are out of scope here. -/
def registry_unpack (message : String) : Option ParsedRecord :=
  let leader := message.data.takeWhile fun c => c.isUpper ∨ c.isDigit
  if leader = [] then none
  else
    match message.data.dropWhile fun c => c.isUpper ∨ c.isDigit with
    | ':' :: _ =>
        if (⟨leader⟩ : String) = "A" then
          (alert_unpack message).map ParsedRecord.alert
        else if (⟨leader⟩ : String) = "COBD1" then
          (obd2cfg_unpack message).map ParsedRecord.obd2cfg
        else none
    | _ => none

/-- C6: evaluation of the round trip.  The alert record
`A:engine=rpm@1@1500` (first ack tag 50) survives encode, single-frame
decode (with ack 50 emitted) and registry parse with all fields
preserved.  But the COBD1 monitor-config record with
`send_to_pit = false, priority = HIGH` - wire text
`COBD1:MONCONF=r.1.0` - parses back with `send_to_pit = true,
priority = IMMEDIATE`, because `unpack` passes the priority digit to the
constructor's `send_to_pit` parameter and the to-pit digit to its
`priority` parameter; the round trip the claim asserts fails on it. -/
theorem c6_record_roundtrip_eval :
    alert_str ⟨"engine", "rpm", true, 1500⟩ = "A:engine=rpm@1@1500" ∧
    split_messages_to_queue split_length 50
        (alert_str ⟨"engine", "rpm", true, 1500⟩) =
      [⟨0, 0, 50, "A:engine=rpm@1@1500"⟩] ∧
    (process_packet emptyBuffers ⟨0, 0, 50, "A:engine=rpm@1@1500"⟩).outputs =
      ["A:engine=rpm@1@1500"] ∧
    (process_packet emptyBuffers ⟨0, 0, 50, "A:engine=rpm@1@1500"⟩).acks =
      [50] ∧
    registry_unpack "A:engine=rpm@1@1500" =
      some (ParsedRecord.alert ⟨"engine", "rpm", true, 1500⟩) ∧
    obd2cfg_str ⟨"rpm", false, OBD2Priority.HIGH⟩ =
      some "COBD1:MONCONF=r.1.0" ∧
    registry_unpack "COBD1:MONCONF=r.1.0" =
      some (ParsedRecord.obd2cfg ⟨"rpm", true, OBD2Priority.IMMEDIATE⟩) ∧
    (⟨"rpm", true, OBD2Priority.IMMEDIATE⟩ : OBD2ConfigMonitor) ≠
      ⟨"rpm", false, OBD2Priority.HIGH⟩ := by
  refine ⟨?_, ?_, ?_, ?_, ?_, ?_, ?_, ?_⟩ <;> decide

end QSGRC
